import Mathlib

/-!
# Verification of the recursive-descent calculator (`calc.py`)

Shallow embedding of the calculator's three components:

* `next` — the lexer (`Lexer.next`): regex rules tried in priority order at
  the current position, modelled over the remaining `List Char` suffix.
* `parse_assign` … `parse_factor` — the recursive-descent parser
  (`Parser.parse_*`).  The Python parser's mutual recursion terminates
  because every cycle consumes input; here the same call tree is driven by
  a fuel parameter, and `parse` supplies a bound (`12 * length + 12`) that
  dominates the parser's call depth.  `PErr.fuelOut` is the artifact of
  that bound; claims about parse failures use `PErr.err`, the image of
  Python's `ParseError`.
* `eval` — the AST walker (`eval`), with the global dict `VARS` made into
  an explicit environment threaded through evaluation and returned even on
  failure (Python's exceptions leave the mutations made so far in `VARS`).

Python's dynamically tagged values are one inductive each:
a token is `int | str` (`Tok`), an AST value is `int | str | tuple`
(`Ast`, with `un`/`bin`/`tern` for the 2/3/4-tuples the code builds), and
the evaluator's exceptions (`ZeroDivisionError`, `TypeError`,
`IndexError`, `ValueError`, plus `**` with a negative exponent producing a
non-integer float) are `EvalErr`.
-/

abbrev Chars := List Char

/-- A Python token: `int(...)` for integer literals, any other token is a
string (operators, identifiers, the end marker `"$"`, error tokens). -/
inductive Tok where
  | int (n : Int)
  | str (s : Chars)
deriving DecidableEq, Repr

/-- The end-of-input token `'$'`. -/
def endTok : Tok := .str ['$']

/-- `ParseError`, carrying the message and the offending token.
`fuelOut` is the fuel artifact (see module docstring); it never occurs for
the fuel bound `parse` supplies on the inputs settled concretely here. -/
inductive PErr where
  | fuelOut
  | err (msg : String) (tok : Tok)
deriving DecidableEq, Repr

/-- The Python AST values: an `int`, a `str` (variable name), or a tuple
`(op, …)` of length 2, 3 or 4. -/
inductive Ast where
  | int (n : Int)
  | str (s : Chars)
  | un (op : Chars) (a : Ast)
  | bin (op : Chars) (a b : Ast)
  | tern (op : Chars) (a b c : Ast)
deriving DecidableEq, Repr

-- ### Lexer

/-- `Lexer.ignore`: the characters skipped before matching (`[ \t]+`). -/
def isSpaceTab (c : Char) : Bool := c == ' ' || c == '\t'

/-- `[0-9]` (ASCII code points 48–57). -/
def isDigitCh (c : Char) : Bool := 48 ≤ c.toNat && c.toNat ≤ 57

/-- `[a-zA-Z]` (ASCII code points 97–122 and 65–90). -/
def isAlphaCh (c : Char) : Bool :=
  (97 ≤ c.toNat && c.toNat ≤ 122) || (65 ≤ c.toNat && c.toNat ≤ 90)

/-- The single-character rule `[+\-*/^()?:|&!@%=<>%]`. -/
def punctCh (c : Char) : Bool :=
  c ∈ ['+', '-', '*', '/', '^', '(', ')', '?', ':', '|', '&', '!', '@', '%', '=', '<', '>']

/-- The two-character rule `==|!=|<=|>=`, applied to the next two characters. -/
def isTwoCharOp (c1 c2 : Char) : Bool :=
  (c1 == '=' && c2 == '=') || (c1 == '!' && c2 == '=') ||
  (c1 == '<' && c2 == '=') || (c1 == '>' && c2 == '=')

/-- Python `int(s)` on a string of decimal digits. -/
def digitsVal (l : Chars) : Nat := l.foldl (fun a c => a * 10 + (c.toNat - 48)) 0

/-- The error token `'#' + str(ord(c))` produced for an unrecognized character. -/
def ordTok (c : Char) : Tok := .str ('#' :: (Nat.repr c.toNat).toList)

/-- The rules tried after the two-character operators: digit run, letter
run, single punctuation character, and `.` (which does not match a
newline: on a newline no rule applies and `next` returns `'$'` without
consuming it, exactly as `re.compile(r'.')` fails to match `'\n'`). -/
def lexRest (c1 : Char) (rest : Chars) : Tok × Chars :=
  if isDigitCh c1 then
    (.int (digitsVal (c1 :: rest.takeWhile isDigitCh)), rest.dropWhile isDigitCh)
  else if isAlphaCh c1 then
    (.str (c1 :: rest.takeWhile isAlphaCh), rest.dropWhile isAlphaCh)
  else if punctCh c1 then
    (.str [c1], rest)
  else if c1 == '\n' then
    (endTok, c1 :: rest)
  else
    (ordTok c1, rest)

/-- `Lexer.next`: skip spaces/tabs, return `'$'` at end of input, else try
the rules in priority order at the current position. -/
def next (l : Chars) : Tok × Chars :=
  match l.dropWhile isSpaceTab with
  | [] => (endTok, [])
  | c1 :: rest =>
    match rest with
    | c2 :: rest2 =>
      if isTwoCharOp c1 c2 then (.str [c1, c2], rest2) else lexRest c1 rest
    | [] => lexRest c1 []

-- ### Parser

/-- Python `str.isalpha()` on the (ASCII) strings the lexer produces. -/
def pyIsAlpha (l : Chars) : Bool := !l.isEmpty && l.all isAlphaCh

/-- The comparison-token set of `parse_compare`. -/
def isCmpTok (t : Tok) : Bool :=
  t == .str ['=', '='] || t == .str ['!', '='] || t == .str ['<'] ||
  t == .str ['<', '='] || t == .str ['>'] || t == .str ['>', '=']

/-- The characters of a (string) token, for building the AST node. -/
def tokChars : Tok → Chars
  | .int _ => []
  | .str s => s

abbrev PRes := Except PErr (Ast × Tok × Chars)

mutual

/-- `Parser.parse_assign`: parse a ternary; if the result is a bare
alphabetic string and the lookahead is `'='`, reinterpret it as an
assignment target and recurse for the right-hand side. -/
def parse_assign : Nat → Tok → Chars → PRes
  | 0, _, _ => .error .fuelOut
  | f + 1, t, r =>
    match parse_ternary f t r with
    | .error pe => .error pe
    | .ok (e, t', r') =>
      match e with
      | .str name =>
        if pyIsAlpha name && t' == .str ['='] then
          match parse_assign f (next r').1 (next r').2 with
          | .error pe => .error pe
          | .ok (rhs, t2, r2) => .ok (.bin ['='] (.str name) rhs, t2, r2)
        else .ok (.str name, t', r')
      | _ => .ok (e, t', r')

/-- `Parser.parse_ternary`. -/
def parse_ternary : Nat → Tok → Chars → PRes
  | 0, _, _ => .error .fuelOut
  | f + 1, t, r =>
    match parse_or f t r with
    | .error pe => .error pe
    | .ok (e, t', r') =>
      if t' == .str ['?'] then
        match parse_assign f (next r').1 (next r').2 with
        | .error pe => .error pe
        | .ok (tb, t2, r2) =>
          if t2 == .str [':'] then
            match parse_assign f (next r2).1 (next r2).2 with
            | .error pe => .error pe
            | .ok (fb, t3, r3) => .ok (.tern ['?', ':'] e tb fb, t3, r3)
          else .error (.err "missing colon in ternary expression" t2)
      else .ok (e, t', r')

/-- `Parser.parse_or`. -/
def parse_or : Nat → Tok → Chars → PRes
  | 0, _, _ => .error .fuelOut
  | f + 1, t, r =>
    match parse_and f t r with
    | .error pe => .error pe
    | .ok (left, t', r') =>
      if t' == .str ['|'] then
        match parse_or f (next r').1 (next r').2 with
        | .error pe => .error pe
        | .ok (right, t2, r2) => .ok (.bin ['|'] left right, t2, r2)
      else .ok (left, t', r')

/-- `Parser.parse_and`. -/
def parse_and : Nat → Tok → Chars → PRes
  | 0, _, _ => .error .fuelOut
  | f + 1, t, r =>
    match parse_not f t r with
    | .error pe => .error pe
    | .ok (left, t', r') =>
      if t' == .str ['&'] then
        match parse_and f (next r').1 (next r').2 with
        | .error pe => .error pe
        | .ok (right, t2, r2) => .ok (.bin ['&'] left right, t2, r2)
      else .ok (left, t', r')

/-- `Parser.parse_not`. -/
def parse_not : Nat → Tok → Chars → PRes
  | 0, _, _ => .error .fuelOut
  | f + 1, t, r =>
    if t == .str ['!'] then
      match parse_not f (next r).1 (next r).2 with
      | .error pe => .error pe
      | .ok (a, t2, r2) => .ok (.un ['!'] a, t2, r2)
    else parse_compare f t r

/-- `Parser.parse_compare`. -/
def parse_compare : Nat → Tok → Chars → PRes
  | 0, _, _ => .error .fuelOut
  | f + 1, t, r =>
    match parse_add f t r with
    | .error pe => .error pe
    | .ok (e, t', r') => compare_loop f e t' r'

/-- The `while` loop of `parse_compare`. -/
def compare_loop : Nat → Ast → Tok → Chars → PRes
  | 0, _, _, _ => .error .fuelOut
  | f + 1, e, t, r =>
    if isCmpTok t then
      match parse_add f (next r).1 (next r).2 with
      | .error pe => .error pe
      | .ok (right, t2, r2) => compare_loop f (.bin (tokChars t) e right) t2 r2
    else .ok (e, t, r)

/-- `Parser.parse_add`. -/
def parse_add : Nat → Tok → Chars → PRes
  | 0, _, _ => .error .fuelOut
  | f + 1, t, r =>
    match parse_mul f t r with
    | .error pe => .error pe
    | .ok (e, t', r') => add_loop f e t' r'

/-- The `while` loop of `parse_add`. -/
def add_loop : Nat → Ast → Tok → Chars → PRes
  | 0, _, _, _ => .error .fuelOut
  | f + 1, e, t, r =>
    if t == .str ['+'] || t == .str ['-'] then
      match parse_mul f (next r).1 (next r).2 with
      | .error pe => .error pe
      | .ok (right, t2, r2) => add_loop f (.bin (tokChars t) e right) t2 r2
    else .ok (e, t, r)

/-- `Parser.parse_mul`. -/
def parse_mul : Nat → Tok → Chars → PRes
  | 0, _, _ => .error .fuelOut
  | f + 1, t, r =>
    match parse_unary f t r with
    | .error pe => .error pe
    | .ok (e, t', r') => mul_loop f e t' r'

/-- The `while` loop of `parse_mul`. -/
def mul_loop : Nat → Ast → Tok → Chars → PRes
  | 0, _, _, _ => .error .fuelOut
  | f + 1, e, t, r =>
    if t == .str ['*'] || t == .str ['/'] || t == .str ['%'] then
      match parse_unary f (next r).1 (next r).2 with
      | .error pe => .error pe
      | .ok (right, t2, r2) => mul_loop f (.bin (tokChars t) e right) t2 r2
    else .ok (e, t, r)

/-- `Parser.parse_unary`. -/
def parse_unary : Nat → Tok → Chars → PRes
  | 0, _, _ => .error .fuelOut
  | f + 1, t, r =>
    if t == .str ['-'] || t == .str ['@'] then
      match parse_unary f (next r).1 (next r).2 with
      | .error pe => .error pe
      | .ok (a, t2, r2) => .ok (.un (tokChars t) a, t2, r2)
    else parse_pow f t r

/-- `Parser.parse_pow`. -/
def parse_pow : Nat → Tok → Chars → PRes
  | 0, _, _ => .error .fuelOut
  | f + 1, t, r =>
    match parse_factor f t r with
    | .error pe => .error pe
    | .ok (left, t', r') =>
      if t' == .str ['^'] then
        match parse_pow f (next r').1 (next r').2 with
        | .error pe => .error pe
        | .ok (right, t2, r2) => .ok (.bin ['^'] left right, t2, r2)
      else .ok (left, t', r')

/-- `Parser.parse_factor`: integer literal, alphabetic variable name, or a
parenthesized full expression (recursing into `parse_assign`). -/
def parse_factor : Nat → Tok → Chars → PRes
  | 0, _, _ => .error .fuelOut
  | f + 1, t, r =>
    match t with
    | .int n => .ok (.int n, (next r).1, (next r).2)
    | .str s =>
      if pyIsAlpha s then
        .ok (.str s, (next r).1, (next r).2)
      else if s == ['('] then
        match parse_assign f (next r).1 (next r).2 with
        | .error pe => .error pe
        | .ok (e, t2, r2) =>
          if t2 == .str [')'] then .ok (e, (next r2).1, (next r2).2)
          else .error (.err "missing closing paren" t2)
      else .error (.err "expected int, variable, or open paren" t)

end

/-- `Parser.parse`: prime the lexer, parse an assignment-level expression,
then require the end marker; any leftover token is "extraneous input". -/
def parse (l : Chars) : Except PErr Ast :=
  match parse_assign (12 * l.length + 12) (next l).1 (next l).2 with
  | .error pe => .error pe
  | .ok (e, t', _) =>
    if t' == endTok then .ok e else .error (.err "extraneous input" t')

/-- `parse` on a Lean string. -/
def parseString (s : String) : Except PErr Ast := parse s.toList

-- ### Evaluator

/-- `VARS`: Python's dict, as an association list keyed by Python values
(an assignment stores under whatever `e[1]` is, a variable read looks up
the name string). Later entries shadow earlier ones. -/
abbrev Env := List (Ast × Int)

/-- `VARS.get(k, 0)`. -/
def envGet (env : Env) (k : Ast) : Int :=
  match env.find? (fun p => p.1 == k) with
  | some p => p.2
  | none => 0

/-- `assign_var`: `VARS[name] = value`. -/
def assign_var (env : Env) (k : Ast) (v : Int) : Env := (k, v) :: env

/-- The evaluator's failures: `ZeroDivisionError` (`// 0`, `% 0`,
`0 ** negative`), `TypeError` (arithmetic with the `None` operand a
2-tuple leaves in `right`), `IndexError` (a tuple shorter than the
operator expects), `ValueError` (unknown operator / invalid node), and
`floatVal` for `**` with a negative exponent, whose Python value is a
`float` and hence outside this integer model. -/
inductive EvalErr where
  | zeroDiv
  | typeErr
  | indexErr
  | valueErr
  | floatVal
deriving DecidableEq, Repr

/-- The fall-through dispatch on `op` over the two evaluated operands
(lines: `if op == '+': return left + right` …).  `//` and `%` are Python
floor division and floor modulus (`Int.fdiv`, `Int.fmod`); `**` with a
negative exponent is a `ZeroDivisionError` for base 0 and a float
otherwise. -/
def binArith (op : Chars) (left right : Int) : Except EvalErr Int :=
  if op == ['+'] then .ok (left + right)
  else if op == ['*'] then .ok (left * right)
  else if op == ['/'] then
    if right == 0 then .error .zeroDiv else .ok (left.fdiv right)
  else if op == ['%'] then
    if right == 0 then .error .zeroDiv else .ok (left.fmod right)
  else if op == ['^'] then
    if right < 0 then
      if left == 0 then .error .zeroDiv else .error .floatVal
    else .ok (left ^ right.toNat)
  else if op == ['=', '='] then .ok (if left == right then 1 else 0)
  else if op == ['!', '='] then .ok (if left != right then 1 else 0)
  else if op == ['<'] then .ok (if left < right then 1 else 0)
  else if op == ['<', '='] then .ok (if left ≤ right then 1 else 0)
  else if op == ['>'] then .ok (if left > right then 1 else 0)
  else if op == ['>', '='] then .ok (if left ≥ right then 1 else 0)
  else .error .valueErr

/-- The same dispatch when `right` stayed `None` (a 2-tuple reaching the
binary section): `int == None` is `False`, `int != None` is `True`, every
other operator raises `TypeError`, an unknown operator `ValueError`. -/
def binArithNone (op : Chars) : Except EvalErr Int :=
  if op == ['+'] || op == ['*'] || op == ['/'] || op == ['%'] || op == ['^'] then
    .error .typeErr
  else if op == ['=', '='] then .ok 0
  else if op == ['!', '='] then .ok 1
  else if op == ['<'] || op == ['<', '='] || op == ['>'] || op == ['>', '='] then
    .error .typeErr
  else .error .valueErr

/-- `eval`, with `VARS` explicit: returns the result (or the exception)
together with the environment as left by the mutations already performed.
The `op` checks replicate the Python source in order — in particular
`op == '-'` is tested before the binary-arithmetic section, so a binary
`('-', a, b)` node is evaluated as unary negation of `a` with `b` ignored,
and tuples of the wrong length hit `IndexError`/`None` exactly where
Python's indexing does. -/
def eval : Ast → Env → (Except EvalErr Int) × Env
  | .int n, env => (.ok n, env)
  | .str s, env => (.ok (envGet env (.str s)), env)
  | .un op a, env =>
    if op = ['='] then
      -- val = eval(e[2]) : IndexError before anything is evaluated
      (.error .indexErr, env)
    else if op = ['?', ':'] then
      -- cond evaluated, then eval(e[2]) or eval(e[3]) : IndexError
      match eval a env with
      | (.error pe, env1) => (.error pe, env1)
      | (.ok _, env1) => (.error .indexErr, env1)
    else if op = ['|'] then
      match eval a env with
      | (.error pe, env1) => (.error pe, env1)
      | (.ok v, env1) => if v ≠ 0 then (.ok v, env1) else (.error .indexErr, env1)
    else if op = ['&'] then
      match eval a env with
      | (.error pe, env1) => (.error pe, env1)
      | (.ok v, env1) => if v = 0 then (.ok 0, env1) else (.error .indexErr, env1)
    else if op = ['!'] then
      match eval a env with
      | (.error pe, env1) => (.error pe, env1)
      | (.ok v, env1) => (.ok (if v = 0 then 1 else 0), env1)
    else if op = ['-'] then
      match eval a env with
      | (.error pe, env1) => (.error pe, env1)
      | (.ok v, env1) => (.ok (-v), env1)
    else if op = ['@'] then
      match eval a env with
      | (.error pe, env1) => (.error pe, env1)
      | (.ok v, env1) => (.ok |v|, env1)
    else
      -- binary section: left = eval(e[1]); right stays None (len(e) == 2)
      match eval a env with
      | (.error pe, env1) => (.error pe, env1)
      | (.ok _, env1) => (binArithNone op, env1)
  | .bin op a b, env =>
    if op = ['='] then
      -- varname = e[1] (not evaluated); val = eval(e[2]); VARS[varname] = val
      match eval b env with
      | (.error pe, env1) => (.error pe, env1)
      | (.ok v, env1) => (.ok v, assign_var env1 a v)
    else if op = ['?', ':'] then
      -- nonzero cond returns eval(e[2]); zero cond indexes e[3] : IndexError
      match eval a env with
      | (.error pe, env1) => (.error pe, env1)
      | (.ok c, env1) => if c ≠ 0 then eval b env1 else (.error .indexErr, env1)
    else if op = ['|'] then
      match eval a env with
      | (.error pe, env1) => (.error pe, env1)
      | (.ok v, env1) => if v ≠ 0 then (.ok v, env1) else eval b env1
    else if op = ['&'] then
      match eval a env with
      | (.error pe, env1) => (.error pe, env1)
      | (.ok v, env1) => if v = 0 then (.ok 0, env1) else eval b env1
    else if op = ['!'] then
      match eval a env with
      | (.error pe, env1) => (.error pe, env1)
      | (.ok v, env1) => (.ok (if v = 0 then 1 else 0), env1)
    else if op = ['-'] then
      -- unary-minus check fires first: e[2] is ignored for a binary '-' node
      match eval a env with
      | (.error pe, env1) => (.error pe, env1)
      | (.ok v, env1) => (.ok (-v), env1)
    else if op = ['@'] then
      match eval a env with
      | (.error pe, env1) => (.error pe, env1)
      | (.ok v, env1) => (.ok |v|, env1)
    else
      match eval a env with
      | (.error pe, env1) => (.error pe, env1)
      | (.ok left, env1) =>
        match eval b env1 with
        | (.error pe, env2) => (.error pe, env2)
        | (.ok right, env2) => (binArith op left right, env2)
  | .tern op a b c, env =>
    if op = ['='] then
      match eval b env with
      | (.error pe, env1) => (.error pe, env1)
      | (.ok v, env1) => (.ok v, assign_var env1 a v)
    else if op = ['?', ':'] then
      match eval a env with
      | (.error pe, env1) => (.error pe, env1)
      | (.ok cv, env1) => if cv ≠ 0 then eval b env1 else eval c env1
    else if op = ['|'] then
      match eval a env with
      | (.error pe, env1) => (.error pe, env1)
      | (.ok v, env1) => if v ≠ 0 then (.ok v, env1) else eval b env1
    else if op = ['&'] then
      match eval a env with
      | (.error pe, env1) => (.error pe, env1)
      | (.ok v, env1) => if v = 0 then (.ok 0, env1) else eval b env1
    else if op = ['!'] then
      match eval a env with
      | (.error pe, env1) => (.error pe, env1)
      | (.ok v, env1) => (.ok (if v = 0 then 1 else 0), env1)
    else if op = ['-'] then
      match eval a env with
      | (.error pe, env1) => (.error pe, env1)
      | (.ok v, env1) => (.ok (-v), env1)
    else if op = ['@'] then
      match eval a env with
      | (.error pe, env1) => (.error pe, env1)
      | (.ok v, env1) => (.ok |v|, env1)
    else
      -- binary section: left = eval(e[1]); right = eval(e[2]); e[3] ignored
      match eval a env with
      | (.error pe, env1) => (.error pe, env1)
      | (.ok left, env1) =>
        match eval b env1 with
        | (.error pe, env2) => (.error pe, env2)
        | (.ok right, env2) => (binArith op left right, env2)

/-- `calc(line)` against a given environment: parse, then evaluate. -/
def calcLine (s : String) (env : Env) : Except PErr ((Except EvalErr Int) × Env) :=
  match parseString s with
  | .error pe => .error pe
  | .ok a => .ok (eval a env)


-- ### Character-class and lexer lemmas

theorem alpha_not_digit {c : Char} (h : isAlphaCh c = true) : isDigitCh c = false := by
  cases hb : isDigitCh c with
  | false => rfl
  | true =>
    exfalso
    simp only [isAlphaCh, isDigitCh, Bool.or_eq_true, Bool.and_eq_true,
      decide_eq_true_eq] at h hb
    omega

theorem not_space_of_alpha {c : Char} (h : isAlphaCh c = true) : isSpaceTab c = false := by
  rcases eq_or_ne c ' ' with rfl | h1
  · exact absurd h (by decide)
  rcases eq_or_ne c '\t' with rfl | h2
  · exact absurd h (by decide)
  simp [isSpaceTab, h1, h2]

theorem two_char_false_of_alpha {c : Char} (h : isAlphaCh c = true) (c2 : Char) :
    isTwoCharOp c c2 = false := by
  rcases eq_or_ne c '=' with rfl | h1
  · exact absurd h (by decide)
  rcases eq_or_ne c '!' with rfl | h2
  · exact absurd h (by decide)
  rcases eq_or_ne c '<' with rfl | h3
  · exact absurd h (by decide)
  rcases eq_or_ne c '>' with rfl | h4
  · exact absurd h (by decide)
  simp [isTwoCharOp, h1, h2, h3, h4]

theorem next_cons (c : Char) (r : Chars) (hsp : isSpaceTab c = false) :
    next (c :: r) =
      (match r with
       | c2 :: rest2 =>
         if isTwoCharOp c c2 then (.str [c, c2], rest2) else lexRest c r
       | [] => lexRest c []) := by
  unfold next
  rw [List.dropWhile_cons_of_neg (by simp [hsp])]
  rfl

theorem takeWhile_all_append {p : Char → Bool} {xs rest : Chars} (h : xs.all p = true)
    (hr : ∀ c, rest.head? = some c → p c = false) :
    (xs ++ rest).takeWhile p = xs ∧ (xs ++ rest).dropWhile p = rest := by
  induction xs with
  | nil =>
    cases rest with
    | nil => simp
    | cons c rs => simp [List.takeWhile, List.dropWhile, hr c rfl]
  | cons c xs ih =>
    simp only [List.all_cons, Bool.and_eq_true] at h
    simpa [List.takeWhile_cons, List.dropWhile_cons, h.1] using ih h.2

theorem next_alpha_run {x rest : Chars} (hx : x ≠ []) (hall : x.all isAlphaCh = true)
    (hr : ∀ c, rest.head? = some c → isAlphaCh c = false) :
    next (x ++ rest) = (.str x, rest) := by
  obtain ⟨c, xs, rfl⟩ : ∃ c xs, x = c :: xs := by
    cases x with
    | nil => exact absurd rfl hx
    | cons c xs => exact ⟨c, xs, rfl⟩
  simp only [List.all_cons, Bool.and_eq_true] at hall
  obtain ⟨hc, hxs⟩ := hall
  have htw := takeWhile_all_append (p := isAlphaCh) hxs hr
  rw [List.cons_append, next_cons c _ (not_space_of_alpha hc)]
  rcases hxr : xs ++ rest with _ | ⟨c2, rs2⟩
  · rw [List.append_eq_nil] at hxr
    obtain ⟨rfl, rfl⟩ := hxr
    simp [lexRest, alpha_not_digit hc, hc]
  · simp only [two_char_false_of_alpha hc c2, Bool.false_eq_true, if_false]
    rw [← hxr]
    simp [lexRest, alpha_not_digit hc, hc, htw.1, htw.2]

theorem not_space_of_digit {c : Char} (h : isDigitCh c = true) : isSpaceTab c = false := by
  rcases eq_or_ne c ' ' with rfl | h1
  · exact absurd h (by decide)
  rcases eq_or_ne c '\t' with rfl | h2
  · exact absurd h (by decide)
  simp [isSpaceTab, h1, h2]

theorem two_char_false_of_digit {c : Char} (h : isDigitCh c = true) (c2 : Char) :
    isTwoCharOp c c2 = false := by
  rcases eq_or_ne c '=' with rfl | h1
  · exact absurd h (by decide)
  rcases eq_or_ne c '!' with rfl | h2
  · exact absurd h (by decide)
  rcases eq_or_ne c '<' with rfl | h3
  · exact absurd h (by decide)
  rcases eq_or_ne c '>' with rfl | h4
  · exact absurd h (by decide)
  simp [isTwoCharOp, h1, h2, h3, h4]

theorem next_digit_run {x rest : Chars} (hx : x ≠ []) (hall : x.all isDigitCh = true)
    (hr : ∀ c, rest.head? = some c → isDigitCh c = false) :
    next (x ++ rest) = (.int (digitsVal x), rest) := by
  obtain ⟨c, xs, rfl⟩ : ∃ c xs, x = c :: xs := by
    cases x with
    | nil => exact absurd rfl hx
    | cons c xs => exact ⟨c, xs, rfl⟩
  simp only [List.all_cons, Bool.and_eq_true] at hall
  obtain ⟨hc, hxs⟩ := hall
  have htw := takeWhile_all_append (p := isDigitCh) hxs hr
  rw [List.cons_append, next_cons c _ (not_space_of_digit hc)]
  rcases hxr : xs ++ rest with _ | ⟨c2, rs2⟩
  · rw [List.append_eq_nil] at hxr
    obtain ⟨rfl, rfl⟩ := hxr
    simp [lexRest, hc]
  · simp only [two_char_false_of_digit hc c2, Bool.false_eq_true, if_false]
    rw [← hxr]
    simp [lexRest, hc, htw.1, htw.2]

theorem next_lparen (r : Chars) : next ('(' :: r) = (.str ['('], r) := by
  cases r <;> rfl

theorem next_rparen (r : Chars) : next (')' :: r) = (.str [')'], r) := by
  cases r <;> rfl

/-- A newline matches no lexer rule (Python `.` excludes `'\n'`), so `next`
returns the end-of-input token without consuming it. -/
theorem next_newline (r : Chars) : next ('\n' :: r) = (endTok, '\n' :: r) := by
  cases r <;> rfl

theorem two_char_false_of_npunct {c : Char} (h : punctCh c = false) (c2 : Char) :
    isTwoCharOp c c2 = false := by
  rcases eq_or_ne c '=' with rfl | h1
  · exact absurd h (by decide)
  rcases eq_or_ne c '!' with rfl | h2
  · exact absurd h (by decide)
  rcases eq_or_ne c '<' with rfl | h3
  · exact absurd h (by decide)
  rcases eq_or_ne c '>' with rfl | h4
  · exact absurd h (by decide)
  simp [isTwoCharOp, h1, h2, h3, h4]

/-- A character matching no rule other than `.` lexes as the error token. -/
theorem next_bad {c : Char} (hsp : isSpaceTab c = false) (hd : isDigitCh c = false)
    (ha : isAlphaCh c = false) (hp : punctCh c = false) (hn : c ≠ '\n') (r : Chars) :
    next (c :: r) = (ordTok c, r) := by
  rw [next_cons c _ hsp]
  have hb : (c == '\n') = false := by simp [hn]
  cases r with
  | nil => simp [lexRest, hd, ha, hp, hb]
  | cons c2 rs2 => simp [two_char_false_of_npunct hp c2, lexRest, hd, ha, hp, hb]


-- ### One-step unfolding equations for the parser (all definitional)

theorem parse_assign_succ (f : Nat) (t : Tok) (r : Chars) :
    parse_assign (f + 1) t r =
      (match parse_ternary f t r with
       | .error pe => .error pe
       | .ok (e, t', r') =>
         match e with
         | .str name =>
           if pyIsAlpha name && t' == .str ['='] then
             match parse_assign f (next r').1 (next r').2 with
             | .error pe => .error pe
             | .ok (rhs, t2, r2) => .ok (.bin ['='] (.str name) rhs, t2, r2)
           else .ok (.str name, t', r')
         | _ => .ok (e, t', r')) := rfl

theorem parse_ternary_succ (f : Nat) (t : Tok) (r : Chars) :
    parse_ternary (f + 1) t r =
      (match parse_or f t r with
       | .error pe => .error pe
       | .ok (e, t', r') =>
         if t' == .str ['?'] then
           match parse_assign f (next r').1 (next r').2 with
           | .error pe => .error pe
           | .ok (tb, t2, r2) =>
             if t2 == .str [':'] then
               match parse_assign f (next r2).1 (next r2).2 with
               | .error pe => .error pe
               | .ok (fb, t3, r3) => .ok (.tern ['?', ':'] e tb fb, t3, r3)
             else .error (.err "missing colon in ternary expression" t2)
         else .ok (e, t', r')) := rfl

theorem parse_or_succ (f : Nat) (t : Tok) (r : Chars) :
    parse_or (f + 1) t r =
      (match parse_and f t r with
       | .error pe => .error pe
       | .ok (left, t', r') =>
         if t' == .str ['|'] then
           match parse_or f (next r').1 (next r').2 with
           | .error pe => .error pe
           | .ok (right, t2, r2) => .ok (.bin ['|'] left right, t2, r2)
         else .ok (left, t', r')) := rfl

theorem parse_and_succ (f : Nat) (t : Tok) (r : Chars) :
    parse_and (f + 1) t r =
      (match parse_not f t r with
       | .error pe => .error pe
       | .ok (left, t', r') =>
         if t' == .str ['&'] then
           match parse_and f (next r').1 (next r').2 with
           | .error pe => .error pe
           | .ok (right, t2, r2) => .ok (.bin ['&'] left right, t2, r2)
         else .ok (left, t', r')) := rfl

theorem parse_not_succ (f : Nat) (t : Tok) (r : Chars) :
    parse_not (f + 1) t r =
      (if t == .str ['!'] then
         match parse_not f (next r).1 (next r).2 with
         | .error pe => .error pe
         | .ok (a, t2, r2) => .ok (.un ['!'] a, t2, r2)
       else parse_compare f t r) := rfl

theorem parse_compare_succ (f : Nat) (t : Tok) (r : Chars) :
    parse_compare (f + 1) t r =
      (match parse_add f t r with
       | .error pe => .error pe
       | .ok (e, t', r') => compare_loop f e t' r') := rfl

theorem compare_loop_succ (f : Nat) (e : Ast) (t : Tok) (r : Chars) :
    compare_loop (f + 1) e t r =
      (if isCmpTok t then
         match parse_add f (next r).1 (next r).2 with
         | .error pe => .error pe
         | .ok (right, t2, r2) => compare_loop f (.bin (tokChars t) e right) t2 r2
       else .ok (e, t, r)) := rfl

theorem parse_add_succ (f : Nat) (t : Tok) (r : Chars) :
    parse_add (f + 1) t r =
      (match parse_mul f t r with
       | .error pe => .error pe
       | .ok (e, t', r') => add_loop f e t' r') := rfl

theorem add_loop_succ (f : Nat) (e : Ast) (t : Tok) (r : Chars) :
    add_loop (f + 1) e t r =
      (if t == .str ['+'] || t == .str ['-'] then
         match parse_mul f (next r).1 (next r).2 with
         | .error pe => .error pe
         | .ok (right, t2, r2) => add_loop f (.bin (tokChars t) e right) t2 r2
       else .ok (e, t, r)) := rfl

theorem parse_mul_succ (f : Nat) (t : Tok) (r : Chars) :
    parse_mul (f + 1) t r =
      (match parse_unary f t r with
       | .error pe => .error pe
       | .ok (e, t', r') => mul_loop f e t' r') := rfl

theorem mul_loop_succ (f : Nat) (e : Ast) (t : Tok) (r : Chars) :
    mul_loop (f + 1) e t r =
      (if t == .str ['*'] || t == .str ['/'] || t == .str ['%'] then
         match parse_unary f (next r).1 (next r).2 with
         | .error pe => .error pe
         | .ok (right, t2, r2) => mul_loop f (.bin (tokChars t) e right) t2 r2
       else .ok (e, t, r)) := rfl

theorem parse_unary_succ (f : Nat) (t : Tok) (r : Chars) :
    parse_unary (f + 1) t r =
      (if t == .str ['-'] || t == .str ['@'] then
         match parse_unary f (next r).1 (next r).2 with
         | .error pe => .error pe
         | .ok (a, t2, r2) => .ok (.un (tokChars t) a, t2, r2)
       else parse_pow f t r) := rfl

theorem parse_pow_succ (f : Nat) (t : Tok) (r : Chars) :
    parse_pow (f + 1) t r =
      (match parse_factor f t r with
       | .error pe => .error pe
       | .ok (left, t', r') =>
         if t' == .str ['^'] then
           match parse_pow f (next r').1 (next r').2 with
           | .error pe => .error pe
           | .ok (right, t2, r2) => .ok (.bin ['^'] left right, t2, r2)
         else .ok (left, t', r')) := rfl

theorem parse_factor_succ (f : Nat) (t : Tok) (r : Chars) :
    parse_factor (f + 1) t r =
      (match t with
       | .int n => .ok (.int n, (next r).1, (next r).2)
       | .str s =>
         if pyIsAlpha s then
           .ok (.str s, (next r).1, (next r).2)
         else if s == ['('] then
           match parse_assign f (next r).1 (next r).2 with
           | .error pe => .error pe
           | .ok (e, t2, r2) =>
             if t2 == .str [')'] then .ok (e, (next r2).1, (next r2).2)
             else .error (.err "missing closing paren" t2)
         else .error (.err "expected int, variable, or open paren" t)) := rfl

/-- Fuel monotonicity: a parse that did not run out of fuel computes the
same result with one more unit of fuel. -/
def MonoAt (p : Nat → Tok → Chars → PRes) (f : Nat) : Prop :=
  ∀ t r, p f t r ≠ .error .fuelOut → p (f + 1) t r = p f t r

def MonoAtL (p : Nat → Ast → Tok → Chars → PRes) (f : Nat) : Prop :=
  ∀ e t r, p f e t r ≠ .error .fuelOut → p (f + 1) e t r = p f e t r

theorem mono_all (f : Nat) :
    MonoAt parse_assign f ∧ MonoAt parse_ternary f ∧ MonoAt parse_or f ∧
    MonoAt parse_and f ∧ MonoAt parse_not f ∧ MonoAt parse_compare f ∧
    MonoAtL compare_loop f ∧ MonoAt parse_add f ∧ MonoAtL add_loop f ∧
    MonoAt parse_mul f ∧ MonoAtL mul_loop f ∧ MonoAt parse_unary f ∧
    MonoAt parse_pow f ∧ MonoAt parse_factor f := by
  induction f with
  | zero =>
    refine ⟨?_, ?_, ?_, ?_, ?_, ?_, ?_, ?_, ?_, ?_, ?_, ?_, ?_, ?_⟩ <;>
      first
      | exact fun t r h => absurd rfl h
      | exact fun e t r h => absurd rfl h
  | succ f ih =>
    obtain ⟨iha, iht, iho, ihd, ihn, ihc, ihcl, ihad, ihal, ihm, ihml, ihu, ihp, ihf⟩ := ih
    refine ⟨?_, ?_, ?_, ?_, ?_, ?_, ?_, ?_, ?_, ?_, ?_, ?_, ?_, ?_⟩
    -- parse_assign
    · intro t r h
      have hne : parse_ternary f t r ≠ .error .fuelOut := by
        intro hcon
        apply h
        rw [parse_assign_succ f t r, hcon]
      rw [parse_assign_succ (f + 1) t r, parse_assign_succ f t r, iht t r hne]
      rcases hter : parse_ternary f t r with pe | ⟨e, t', r'⟩
      · rfl
      · rcases e with n | s | ⟨op, a⟩ | ⟨op, a, b⟩ | ⟨op, a, b, c⟩
        case str =>
          by_cases hg : (pyIsAlpha s && t' == Tok.str ['=']) = true
          · simp only [hg, if_true]
            have hne2 : parse_assign f (next r').1 (next r').2 ≠ .error .fuelOut := by
              intro hcon
              apply h
              rw [parse_assign_succ f t r, hter]
              simp only [hg, if_true, hcon]
            rw [iha _ _ hne2]
          · simp only [hg, Bool.false_eq_true, if_false]
        all_goals rfl
    -- parse_ternary
    · intro t r h
      have hne : parse_or f t r ≠ .error .fuelOut := by
        intro hcon
        apply h
        rw [parse_ternary_succ f t r, hcon]
      rw [parse_ternary_succ (f + 1) t r, parse_ternary_succ f t r, iho t r hne]
      rcases hor : parse_or f t r with pe | ⟨e, t', r'⟩
      · rfl
      · by_cases hq : (t' == Tok.str ['?']) = true
        · simp only [hq, if_true]
          have hne2 : parse_assign f (next r').1 (next r').2 ≠ .error .fuelOut := by
            intro hcon
            apply h
            rw [parse_ternary_succ f t r, hor]
            simp only [hq, if_true, hcon]
          rw [iha _ _ hne2]
          rcases has : parse_assign f (next r').1 (next r').2 with pe2 | ⟨tb, t2, r2⟩
          · rfl
          · by_cases hc : (t2 == Tok.str [':']) = true
            · simp only [hc, if_true]
              have hne3 : parse_assign f (next r2).1 (next r2).2 ≠ .error .fuelOut := by
                intro hcon
                apply h
                rw [parse_ternary_succ f t r, hor]
                simp only [hq, if_true]
                rw [has]
                simp only [hc, if_true, hcon]
              rw [iha _ _ hne3]
            · simp only [hc, Bool.false_eq_true, if_false]
        · simp only [hq, Bool.false_eq_true, if_false]
    -- parse_or
    · intro t r h
      have hne : parse_and f t r ≠ .error .fuelOut := by
        intro hcon
        apply h
        rw [parse_or_succ f t r, hcon]
      rw [parse_or_succ (f + 1) t r, parse_or_succ f t r, ihd t r hne]
      rcases hand : parse_and f t r with pe | ⟨left, t', r'⟩
      · rfl
      · by_cases hb : (t' == Tok.str ['|']) = true
        · simp only [hb, if_true]
          have hne2 : parse_or f (next r').1 (next r').2 ≠ .error .fuelOut := by
            intro hcon
            apply h
            rw [parse_or_succ f t r, hand]
            simp only [hb, if_true, hcon]
          rw [iho _ _ hne2]
        · simp only [hb, Bool.false_eq_true, if_false]
    -- parse_and
    · intro t r h
      have hne : parse_not f t r ≠ .error .fuelOut := by
        intro hcon
        apply h
        rw [parse_and_succ f t r, hcon]
      rw [parse_and_succ (f + 1) t r, parse_and_succ f t r, ihn t r hne]
      rcases hnot : parse_not f t r with pe | ⟨left, t', r'⟩
      · rfl
      · by_cases hb : (t' == Tok.str ['&']) = true
        · simp only [hb, if_true]
          have hne2 : parse_and f (next r').1 (next r').2 ≠ .error .fuelOut := by
            intro hcon
            apply h
            rw [parse_and_succ f t r, hnot]
            simp only [hb, if_true, hcon]
          rw [ihd _ _ hne2]
        · simp only [hb, Bool.false_eq_true, if_false]
    -- parse_not
    · intro t r h
      rw [parse_not_succ (f + 1) t r, parse_not_succ f t r]
      by_cases hb : (t == Tok.str ['!']) = true
      · simp only [hb, if_true]
        have hne2 : parse_not f (next r).1 (next r).2 ≠ .error .fuelOut := by
          intro hcon
          apply h
          rw [parse_not_succ f t r]
          simp only [hb, if_true, hcon]
        rw [ihn _ _ hne2]
      · simp only [hb, Bool.false_eq_true, if_false]
        have hne2 : parse_compare f t r ≠ .error .fuelOut := by
          intro hcon
          apply h
          rw [parse_not_succ f t r]
          simp only [hb, Bool.false_eq_true, if_false, hcon]
        exact ihc t r hne2
    -- parse_compare
    · intro t r h
      have hne : parse_add f t r ≠ .error .fuelOut := by
        intro hcon
        apply h
        rw [parse_compare_succ f t r, hcon]
      rw [parse_compare_succ (f + 1) t r, parse_compare_succ f t r, ihad t r hne]
      rcases hadd : parse_add f t r with pe | ⟨e, t', r'⟩
      · rfl
      · have hne2 : compare_loop f e t' r' ≠ .error .fuelOut := by
          intro hcon
          apply h
          rw [parse_compare_succ f t r, hadd]
          exact hcon
        exact ihcl _ _ _ hne2
    -- compare_loop
    · intro e t r h
      rw [compare_loop_succ (f + 1) e t r, compare_loop_succ f e t r]
      by_cases hb : isCmpTok t = true
      · simp only [hb, if_true]
        have hne : parse_add f (next r).1 (next r).2 ≠ .error .fuelOut := by
          intro hcon
          apply h
          rw [compare_loop_succ f e t r]
          simp only [hb, if_true, hcon]
        rw [ihad _ _ hne]
        rcases hadd : parse_add f (next r).1 (next r).2 with pe | ⟨right, t2, r2⟩
        · rfl
        · have hne2 : compare_loop f (.bin (tokChars t) e right) t2 r2 ≠ .error .fuelOut := by
            intro hcon
            apply h
            rw [compare_loop_succ f e t r]
            simp only [hb, if_true]
            rw [hadd]
            exact hcon
          exact ihcl _ _ _ hne2
      · simp only [hb, Bool.false_eq_true, if_false]
    -- parse_add
    · intro t r h
      have hne : parse_mul f t r ≠ .error .fuelOut := by
        intro hcon
        apply h
        rw [parse_add_succ f t r, hcon]
      rw [parse_add_succ (f + 1) t r, parse_add_succ f t r, ihm t r hne]
      rcases hmul : parse_mul f t r with pe | ⟨e, t', r'⟩
      · rfl
      · have hne2 : add_loop f e t' r' ≠ .error .fuelOut := by
          intro hcon
          apply h
          rw [parse_add_succ f t r, hmul]
          exact hcon
        exact ihal _ _ _ hne2
    -- add_loop
    · intro e t r h
      rw [add_loop_succ (f + 1) e t r, add_loop_succ f e t r]
      by_cases hb : (t == Tok.str ['+'] || t == Tok.str ['-']) = true
      · simp only [hb, if_true]
        have hne : parse_mul f (next r).1 (next r).2 ≠ .error .fuelOut := by
          intro hcon
          apply h
          rw [add_loop_succ f e t r]
          simp only [hb, if_true, hcon]
        rw [ihm _ _ hne]
        rcases hmul : parse_mul f (next r).1 (next r).2 with pe | ⟨right, t2, r2⟩
        · rfl
        · have hne2 : add_loop f (.bin (tokChars t) e right) t2 r2 ≠ .error .fuelOut := by
            intro hcon
            apply h
            rw [add_loop_succ f e t r]
            simp only [hb, if_true]
            rw [hmul]
            exact hcon
          exact ihal _ _ _ hne2
      · simp only [hb, Bool.false_eq_true, if_false]
    -- parse_mul
    · intro t r h
      have hne : parse_unary f t r ≠ .error .fuelOut := by
        intro hcon
        apply h
        rw [parse_mul_succ f t r, hcon]
      rw [parse_mul_succ (f + 1) t r, parse_mul_succ f t r, ihu t r hne]
      rcases hun : parse_unary f t r with pe | ⟨e, t', r'⟩
      · rfl
      · have hne2 : mul_loop f e t' r' ≠ .error .fuelOut := by
          intro hcon
          apply h
          rw [parse_mul_succ f t r, hun]
          exact hcon
        exact ihml _ _ _ hne2
    -- mul_loop
    · intro e t r h
      rw [mul_loop_succ (f + 1) e t r, mul_loop_succ f e t r]
      by_cases hb : (t == Tok.str ['*'] || t == Tok.str ['/'] || t == Tok.str ['%']) = true
      · simp only [hb, if_true]
        have hne : parse_unary f (next r).1 (next r).2 ≠ .error .fuelOut := by
          intro hcon
          apply h
          rw [mul_loop_succ f e t r]
          simp only [hb, if_true, hcon]
        rw [ihu _ _ hne]
        rcases hun : parse_unary f (next r).1 (next r).2 with pe | ⟨right, t2, r2⟩
        · rfl
        · have hne2 : mul_loop f (.bin (tokChars t) e right) t2 r2 ≠ .error .fuelOut := by
            intro hcon
            apply h
            rw [mul_loop_succ f e t r]
            simp only [hb, if_true]
            rw [hun]
            exact hcon
          exact ihml _ _ _ hne2
      · simp only [hb, Bool.false_eq_true, if_false]
    -- parse_unary
    · intro t r h
      rw [parse_unary_succ (f + 1) t r, parse_unary_succ f t r]
      by_cases hb : (t == Tok.str ['-'] || t == Tok.str ['@']) = true
      · simp only [hb, if_true]
        have hne : parse_unary f (next r).1 (next r).2 ≠ .error .fuelOut := by
          intro hcon
          apply h
          rw [parse_unary_succ f t r]
          simp only [hb, if_true, hcon]
        rw [ihu _ _ hne]
      · simp only [hb, Bool.false_eq_true, if_false]
        have hne : parse_pow f t r ≠ .error .fuelOut := by
          intro hcon
          apply h
          rw [parse_unary_succ f t r]
          simp only [hb, Bool.false_eq_true, if_false, hcon]
        exact ihp t r hne
    -- parse_pow
    · intro t r h
      have hne : parse_factor f t r ≠ .error .fuelOut := by
        intro hcon
        apply h
        rw [parse_pow_succ f t r, hcon]
      rw [parse_pow_succ (f + 1) t r, parse_pow_succ f t r, ihf t r hne]
      rcases hfac : parse_factor f t r with pe | ⟨left, t', r'⟩
      · rfl
      · by_cases hb : (t' == Tok.str ['^']) = true
        · simp only [hb, if_true]
          have hne2 : parse_pow f (next r').1 (next r').2 ≠ .error .fuelOut := by
            intro hcon
            apply h
            rw [parse_pow_succ f t r, hfac]
            simp only [hb, if_true, hcon]
          rw [ihp _ _ hne2]
        · simp only [hb, Bool.false_eq_true, if_false]
    -- parse_factor
    · intro t r h
      rw [parse_factor_succ (f + 1) t r, parse_factor_succ f t r]
      rcases t with n | s
      · rfl
      · by_cases halpha : pyIsAlpha s = true
        · simp only [halpha, if_true]
        · simp only [halpha, Bool.false_eq_true, if_false]
          by_cases hlp : (s == ['(']) = true
          · simp only [hlp, if_true]
            have hne : parse_assign f (next r).1 (next r).2 ≠ .error .fuelOut := by
              intro hcon
              apply h
              rw [parse_factor_succ f (.str s) r]
              simp only [halpha, Bool.false_eq_true, if_false, hlp, if_true, hcon]
            rw [iha _ _ hne]
          · simp only [hlp, Bool.false_eq_true, if_false]

/-- Fuel monotonicity for `parse_assign`, iterated. -/
theorem parse_assign_mono {f g : Nat} (hfg : f ≤ g) (t : Tok) (r : Chars)
    (h : parse_assign f t r ≠ .error .fuelOut) :
    parse_assign g t r = parse_assign f t r := by
  induction g, hfg using Nat.le_induction with
  | base => rfl
  | succ g hg ihg =>
    have hg2 : parse_assign g t r ≠ .error .fuelOut := by rw [ihg]; exact h
    rw [(mono_all g).1 t r hg2, ihg]

-- ### Symbolic parser traces
theorem pyAlpha_ne_single {x : Chars} (hx : pyIsAlpha x = true) {d : Char}
    (hd : isAlphaCh d = false) : x ≠ [d] := by
  rintro rfl
  simp [pyIsAlpha, hd] at hx

/-- The lookahead tokens that stop every operator loop on the climb back
from a factor: none of the infix/suffix operator checks may fire. -/
def climbStop (t : Tok) : Bool :=
  !(t == .str ['^'] || t == .str ['*'] || t == .str ['/'] || t == .str ['%'] ||
    t == .str ['+'] || t == .str ['-'] || isCmpTok t || t == .str ['&'] ||
    t == .str ['|'] || t == .str ['?'])

theorem factor_ident {f : Nat} {x : Chars} (hx : pyIsAlpha x = true) (r : Chars) :
    parse_factor (f + 1) (.str x) r = .ok (.str x, (next r).1, (next r).2) := by
  simp [parse_factor, hx]

theorem factor_int {f : Nat} (n : Int) (r : Chars) :
    parse_factor (f + 1) (.int n) r = .ok (.int n, (next r).1, (next r).2) := by
  simp [parse_factor]

theorem pow_of_factor {F : Nat} {t0 : Tok} {r0 : Chars} {e : Ast} {t' : Tok} {r' : Chars}
    (h : parse_factor F t0 r0 = .ok (e, t', r'))
    (hs : climbStop t' = true) :
    parse_pow (F + 1) t0 r0 = .ok (e, t', r') := by
  have h1 : (t' == Tok.str ['^']) = false := by
    simp only [climbStop, Bool.not_eq_true', Bool.or_eq_false_iff] at hs
    exact hs.1.1.1.1.1.1.1.1.1
  simp [parse_pow, h, h1]

theorem climbStop_spec {t : Tok} (h : climbStop t = true) :
    (t == Tok.str ['^']) = false ∧ (t == Tok.str ['*']) = false ∧
    (t == Tok.str ['/']) = false ∧ (t == Tok.str ['%']) = false ∧
    (t == Tok.str ['+']) = false ∧ (t == Tok.str ['-']) = false ∧
    isCmpTok t = false ∧ (t == Tok.str ['&']) = false ∧
    (t == Tok.str ['|']) = false ∧ (t == Tok.str ['?']) = false := by
  simp only [climbStop, Bool.not_eq_true', Bool.or_eq_false_iff] at h
  exact ⟨h.1.1.1.1.1.1.1.1.1, h.1.1.1.1.1.1.1.1.2, h.1.1.1.1.1.1.1.2,
    h.1.1.1.1.1.1.2, h.1.1.1.1.1.2, h.1.1.1.1.2, h.1.1.1.2, h.1.1.2, h.1.2, h.2⟩

theorem unary_of_factor {F : Nat} {t0 : Tok} {r0 : Chars} {e : Ast} {t' : Tok} {r' : Chars}
    (h : parse_factor F t0 r0 = .ok (e, t', r')) (hs : climbStop t' = true)
    (hm : (t0 == Tok.str ['-']) = false) (hat : (t0 == Tok.str ['@']) = false) :
    parse_unary (F + 2) t0 r0 = .ok (e, t', r') := by
  have e2 : F + 2 = (F + 1) + 1 := rfl
  rw [e2]
  simp [parse_unary, hm, hat, pow_of_factor h hs]

theorem mul_of_factor {F : Nat} {t0 : Tok} {r0 : Chars} {e : Ast} {t' : Tok} {r' : Chars}
    (h : parse_factor F t0 r0 = .ok (e, t', r')) (hs : climbStop t' = true)
    (hm : (t0 == Tok.str ['-']) = false) (hat : (t0 == Tok.str ['@']) = false) :
    parse_mul (F + 3) t0 r0 = .ok (e, t', r') := by
  obtain ⟨-, h2, h3, h4, -⟩ := climbStop_spec hs
  have e3 : F + 3 = (F + 2) + 1 := rfl
  rw [e3]
  simp only [parse_mul, unary_of_factor h hs hm hat]
  have e2 : F + 2 = (F + 1) + 1 := rfl
  rw [e2]
  simp [mul_loop, h2, h3, h4]

theorem add_of_factor {F : Nat} {t0 : Tok} {r0 : Chars} {e : Ast} {t' : Tok} {r' : Chars}
    (h : parse_factor F t0 r0 = .ok (e, t', r')) (hs : climbStop t' = true)
    (hm : (t0 == Tok.str ['-']) = false) (hat : (t0 == Tok.str ['@']) = false) :
    parse_add (F + 4) t0 r0 = .ok (e, t', r') := by
  obtain ⟨-, -, -, -, h5, h6, -⟩ := climbStop_spec hs
  have e4 : F + 4 = (F + 3) + 1 := rfl
  rw [e4]
  simp only [parse_add, mul_of_factor h hs hm hat]
  have e3 : F + 3 = (F + 2) + 1 := rfl
  rw [e3]
  simp [add_loop, h5, h6]

theorem compare_of_factor {F : Nat} {t0 : Tok} {r0 : Chars} {e : Ast} {t' : Tok} {r' : Chars}
    (h : parse_factor F t0 r0 = .ok (e, t', r')) (hs : climbStop t' = true)
    (hm : (t0 == Tok.str ['-']) = false) (hat : (t0 == Tok.str ['@']) = false) :
    parse_compare (F + 5) t0 r0 = .ok (e, t', r') := by
  obtain ⟨-, -, -, -, -, -, h7, -⟩ := climbStop_spec hs
  have e5 : F + 5 = (F + 4) + 1 := rfl
  rw [e5]
  simp only [parse_compare, add_of_factor h hs hm hat]
  have e4 : F + 4 = (F + 3) + 1 := rfl
  rw [e4]
  simp [compare_loop, h7]

theorem not_of_factor {F : Nat} {t0 : Tok} {r0 : Chars} {e : Ast} {t' : Tok} {r' : Chars}
    (h : parse_factor F t0 r0 = .ok (e, t', r')) (hs : climbStop t' = true)
    (hm : (t0 == Tok.str ['-']) = false) (hat : (t0 == Tok.str ['@']) = false)
    (hbang : (t0 == Tok.str ['!']) = false) :
    parse_not (F + 6) t0 r0 = .ok (e, t', r') := by
  have e6 : F + 6 = (F + 5) + 1 := rfl
  rw [e6]
  simp [parse_not, hbang, compare_of_factor h hs hm hat]

theorem and_of_factor {F : Nat} {t0 : Tok} {r0 : Chars} {e : Ast} {t' : Tok} {r' : Chars}
    (h : parse_factor F t0 r0 = .ok (e, t', r')) (hs : climbStop t' = true)
    (hm : (t0 == Tok.str ['-']) = false) (hat : (t0 == Tok.str ['@']) = false)
    (hbang : (t0 == Tok.str ['!']) = false) :
    parse_and (F + 7) t0 r0 = .ok (e, t', r') := by
  obtain ⟨-, -, -, -, -, -, -, h8, -⟩ := climbStop_spec hs
  have e7 : F + 7 = (F + 6) + 1 := rfl
  rw [e7]
  simp [parse_and, not_of_factor h hs hm hat hbang, h8]

theorem or_of_factor {F : Nat} {t0 : Tok} {r0 : Chars} {e : Ast} {t' : Tok} {r' : Chars}
    (h : parse_factor F t0 r0 = .ok (e, t', r')) (hs : climbStop t' = true)
    (hm : (t0 == Tok.str ['-']) = false) (hat : (t0 == Tok.str ['@']) = false)
    (hbang : (t0 == Tok.str ['!']) = false) :
    parse_or (F + 8) t0 r0 = .ok (e, t', r') := by
  obtain ⟨-, -, -, -, -, -, -, -, h9, -⟩ := climbStop_spec hs
  have e8 : F + 8 = (F + 7) + 1 := rfl
  rw [e8]
  simp [parse_or, and_of_factor h hs hm hat hbang, h9]

theorem ternary_of_factor {F : Nat} {t0 : Tok} {r0 : Chars} {e : Ast} {t' : Tok} {r' : Chars}
    (h : parse_factor F t0 r0 = .ok (e, t', r')) (hs : climbStop t' = true)
    (hm : (t0 == Tok.str ['-']) = false) (hat : (t0 == Tok.str ['@']) = false)
    (hbang : (t0 == Tok.str ['!']) = false) :
    parse_ternary (F + 9) t0 r0 = .ok (e, t', r') := by
  obtain ⟨-, -, -, -, -, -, -, -, -, h10⟩ := climbStop_spec hs
  have e9 : F + 9 = (F + 8) + 1 := rfl
  rw [e9]
  simp [parse_ternary, or_of_factor h hs hm hat hbang, h10]

theorem tok_ident_ne {x : Chars} (hx : pyIsAlpha x = true) {d : Char}
    (hd : isAlphaCh d = false) : (Tok.str x == Tok.str [d]) = false := by
  rw [beq_eq_false_iff_ne]
  intro hcon
  exact pyAlpha_ne_single hx hd (by injection hcon)

/-- An identifier followed by `'='`: `parse_assign` wraps the right-hand
side parse into an assignment node. -/
theorem assign_ident_eq {f : Nat} {x r r2 : Chars} (hx : pyIsAlpha x = true)
    (hnx : next r = (.str ['='], r2)) :
    parse_assign (f + 11) (.str x) r =
      (match parse_assign (f + 10) (next r2).1 (next r2).2 with
       | .error pe => .error pe
       | .ok (rhs, t2, rr) => .ok (.bin ['='] (.str x) rhs, t2, rr)) := by
  have h0 : parse_factor (f + 1) (.str x) r = .ok (.str x, Tok.str ['='], r2) := by
    rw [factor_ident hx r, hnx]
  have hm := tok_ident_ne hx (d := '-') (by decide)
  have hat := tok_ident_ne hx (d := '@') (by decide)
  have hbang := tok_ident_ne hx (d := '!') (by decide)
  have hter : parse_ternary ((f + 1) + 9) (.str x) r = .ok (.str x, Tok.str ['='], r2) :=
    ternary_of_factor h0 (by decide) hm hat hbang
  have e11 : f + 11 = (f + 10) + 1 := rfl
  rw [e11]
  simp only [parse_assign]
  rw [show (f + 1) + 9 = f + 10 from rfl] at hter
  rw [hter]
  simp [hx]

/-- An identifier with a non-operator lookahead parses as a bare variable. -/
theorem assign_ident_stop {f : Nat} {x r : Chars} {t' : Tok} {r' : Chars}
    (hx : pyIsAlpha x = true) (hnx : next r = (t', r')) (hs : climbStop t' = true)
    (hne : (t' == Tok.str ['=']) = false) :
    parse_assign (f + 11) (.str x) r = .ok (.str x, t', r') := by
  have h0 : parse_factor (f + 1) (.str x) r = .ok (.str x, t', r') := by
    rw [factor_ident hx r, hnx]
  have hm := tok_ident_ne hx (d := '-') (by decide)
  have hat := tok_ident_ne hx (d := '@') (by decide)
  have hbang := tok_ident_ne hx (d := '!') (by decide)
  have hter : parse_ternary ((f + 1) + 9) (.str x) r = .ok (.str x, t', r') :=
    ternary_of_factor h0 hs hm hat hbang
  have e11 : f + 11 = (f + 10) + 1 := rfl
  rw [e11]
  simp only [parse_assign]
  rw [show (f + 1) + 9 = f + 10 from rfl] at hter
  rw [hter]
  simp [hne]

/-- An integer literal with a non-operator lookahead parses as itself. -/
theorem assign_int_stop {f : Nat} {n : Int} {r : Chars} {t' : Tok} {r' : Chars}
    (hnx : next r = (t', r')) (hs : climbStop t' = true) :
    parse_assign (f + 11) (.int n) r = .ok (.int n, t', r') := by
  have h0 : parse_factor (f + 1) (.int n) r = .ok (.int n, t', r') := by
    rw [factor_int n r, hnx]
  have hter : parse_ternary ((f + 1) + 9) (.int n) r = .ok (.int n, t', r') :=
    ternary_of_factor h0 hs (by simp) (by simp) (by simp)
  have e11 : f + 11 = (f + 10) + 1 := rfl
  rw [e11]
  simp only [parse_assign]
  rw [show (f + 1) + 9 = f + 10 from rfl] at hter
  rw [hter]

/-- A parenthesized bare identifier: the factor returns the inner variable
node itself — parentheses add no AST node. -/
theorem factor_paren_ident {f : Nat} {x r0 r1 rr : Chars} (hx : pyIsAlpha x = true)
    (h1 : next r0 = (.str x, r1)) (h2 : next r1 = (.str [')'], rr)) :
    parse_factor (f + 12) (.str ['(']) r0 = .ok (.str x, (next rr).1, (next rr).2) := by
  have e12 : f + 12 = (f + 11) + 1 := rfl
  rw [e12]
  simp only [parse_factor]
  rw [h1]
  rw [assign_ident_stop hx h2 (by decide) (by decide)]
  simp [show pyIsAlpha ['('] = false from by decide, beq_self_eq_true]

/-- `( x ) = …` parses exactly like `x = …`: the same assignment node. -/
theorem assign_paren_ident {f : Nat} {x r0 r1 rr r2 : Chars} (hx : pyIsAlpha x = true)
    (h1 : next r0 = (.str x, r1)) (h2 : next r1 = (.str [')'], rr))
    (h3 : next rr = (.str ['='], r2)) :
    parse_assign (f + 22) (.str ['(']) r0 =
      (match parse_assign (f + 21) (next r2).1 (next r2).2 with
       | .error pe => .error pe
       | .ok (rhs, t2, rr2) => .ok (.bin ['='] (.str x) rhs, t2, rr2)) := by
  have h0 : parse_factor (f + 12) (.str ['(']) r0 = .ok (.str x, Tok.str ['='], r2) := by
    rw [factor_paren_ident hx h1 h2, h3]
  have hter : parse_ternary ((f + 12) + 9) (.str ['(']) r0 = .ok (.str x, Tok.str ['='], r2) :=
    ternary_of_factor h0 (by decide) (by decide) (by decide) (by decide)
  have e22 : f + 22 = (f + 21) + 1 := rfl
  rw [e22]
  simp only [parse_assign]
  rw [show (f + 12) + 9 = f + 21 from rfl] at hter
  rw [hter]
  simp [hx]

-- ### Decidable equality for parse/eval results

instance {ε α : Type} [DecidableEq ε] [DecidableEq α] : DecidableEq (Except ε α) := fun x y =>
  match x, y with
  | .ok a, .ok b => decidable_of_iff (a = b) (by simp)
  | .error a, .error b => decidable_of_iff (a = b) (by simp)
  | .ok _, .error _ => isFalse (by simp)
  | .error _, .ok _ => isFalse (by simp)

-- ### Claims

/-- **C1** Short-circuit of the logical operators: for every expression
`e`, evaluating `0 & e` returns 0 without evaluating `e` (the result and
the environment do not depend on `e` in any way), and for every left
operand whose value is nonzero, `|` returns that value itself — not a
normalized 0/1 — without evaluating the right operand.  Concretely,
`evaluate(parse("0 & (1/0)"))` is 0 and `evaluate(parse("1 | (1/0)"))`
is 1; neither raises, although `1/0` alone raises. -/
theorem C1_short_circuit :
    (∀ (e : Ast) (env : Env), eval (.bin ['&'] (.int 0) e) env = (.ok 0, env)) ∧
    (∀ (a e : Ast) (env env1 : Env) (v : Int),
      eval a env = (.ok v, env1) → v ≠ 0 →
      eval (.bin ['|'] a e) env = (.ok v, env1)) ∧
    parseString "0 & (1/0)" = .ok (.bin ['&'] (.int 0) (.bin ['/'] (.int 1) (.int 0))) ∧
    eval (.bin ['&'] (.int 0) (.bin ['/'] (.int 1) (.int 0))) [] = (.ok 0, []) ∧
    parseString "1 | (1/0)" = .ok (.bin ['|'] (.int 1) (.bin ['/'] (.int 1) (.int 0))) ∧
    eval (.bin ['|'] (.int 1) (.bin ['/'] (.int 1) (.int 0))) [] = (.ok 1, []) := by
  refine ⟨fun e env => by simp [eval], fun a e env env1 v h hv => by simp [eval, h, hv],
    ?_, ?_, ?_, ?_⟩ <;> rfl

/-- **C1** witness: the `|` short-circuit theorem applied at the concrete
left operand `1` in the empty environment. -/
theorem C1_witness :
    eval (.bin ['&'] (.int 0) (.bin ['/'] (.int 1) (.int 0))) [] = (.ok 0, []) ∧
    eval (.bin ['|'] (.int 1) (.bin ['/'] (.int 1) (.int 0))) [] = (.ok 1, []) :=
  ⟨C1_short_circuit.1 (.bin ['/'] (.int 1) (.int 0)) [],
   C1_short_circuit.2.1 (.int 1) (.bin ['/'] (.int 1) (.int 0)) [] [] 1 rfl (by decide)⟩

/-- **C2** Division or modulo by zero is a runtime failure, not a parse
failure: whenever the right operand of a `/` or `%` node evaluates to 0,
evaluation raises `ZeroDivisionError` (an `EvalErr`, the evaluator's
failure type, disjoint from the parser's `PErr`), while `parse "1 / 0"`
itself succeeds and only the subsequent evaluation raises. -/
theorem C2_div_mod_zero :
    (∀ (a b : Ast) (env env1 env2 : Env) (v : Int),
      eval a env = (.ok v, env1) → eval b env1 = (.ok 0, env2) →
      eval (.bin ['/'] a b) env = (.error .zeroDiv, env2) ∧
      eval (.bin ['%'] a b) env = (.error .zeroDiv, env2)) ∧
    parseString "1 / 0" = .ok (.bin ['/'] (.int 1) (.int 0)) ∧
    eval (.bin ['/'] (.int 1) (.int 0)) [] = (.error .zeroDiv, []) := by
  refine ⟨fun a b env env1 env2 v ha hb => ⟨?_, ?_⟩, ?_, ?_⟩
  · simp [eval, ha, hb, binArith]
  · simp [eval, ha, hb, binArith]
  · rfl
  · rfl

/-- **C2** witness: the zero-divisor theorem applied at `1 / 0` and
`1 % 0` in the empty environment. -/
theorem C2_witness :
    eval (.bin ['/'] (.int 1) (.int 0)) [] = (.error .zeroDiv, []) ∧
    eval (.bin ['%'] (.int 1) (.int 0)) [] = (.error .zeroDiv, []) :=
  ⟨(C2_div_mod_zero.1 (.int 1) (.int 0) [] [] [] 1 rfl rfl).1,
   (C2_div_mod_zero.1 (.int 1) (.int 0) [] [] [] 1 rfl rfl).2⟩

/-- **C5** Partial commit on runtime failure: evaluation is eager
left-to-right, so when the right operand of a `+` node fails, the final
environment is exactly the one left by the failed right-operand
evaluation — every assignment committed earlier (inside the left operand,
or inside the right operand before its failure point) persists.
Concretely, `evaluate(parse("(x = 1) + (1/0)"))` raises `zeroDiv` while
the environment maps `x` to 1. -/
theorem C5_partial_commit :
    (∀ (a b : Ast) (env env1 env2 : Env) (v : Int) (er : EvalErr),
      eval a env = (.ok v, env1) → eval b env1 = (.error er, env2) →
      eval (.bin ['+'] a b) env = (.error er, env2)) ∧
    parseString "(x = 1) + (1/0)" =
      .ok (.bin ['+'] (.bin ['='] (.str ['x']) (.int 1)) (.bin ['/'] (.int 1) (.int 0))) ∧
    eval (.bin ['+'] (.bin ['='] (.str ['x']) (.int 1)) (.bin ['/'] (.int 1) (.int 0))) [] =
      (.error .zeroDiv, [(.str ['x'], 1)]) ∧
    envGet [(.str ['x'], 1)] (.str ['x']) = 1 := by
  refine ⟨fun a b env env1 env2 v er ha hb => by simp [eval, ha, hb], ?_, ?_, ?_⟩ <;> rfl

/-- **C5** witness: the left-operand-committed theorem applied at
`(x = 1) + (1/0)` in the empty environment. -/
theorem C5_witness :
    eval (.bin ['+'] (.bin ['='] (.str ['x']) (.int 1)) (.bin ['/'] (.int 1) (.int 0))) [] =
      (.error .zeroDiv, [(.str ['x'], 1)]) :=
  C5_partial_commit.1 (.bin ['='] (.str ['x']) (.int 1)) (.bin ['/'] (.int 1) (.int 0))
    [] [(.str ['x'], 1)] [(.str ['x'], 1)] 1 .zeroDiv rfl rfl

/-- **C6** Multiplicative operators bind tighter than additive ones, and
parentheses override that precedence: `2 + 3 * 4` parses as
`2 + (3 * 4)` and evaluates to 14; `(2 + 3) * 4` evaluates to 20. -/
theorem C6_precedence :
    parseString "2 + 3 * 4" = .ok (.bin ['+'] (.int 2) (.bin ['*'] (.int 3) (.int 4))) ∧
    eval (.bin ['+'] (.int 2) (.bin ['*'] (.int 3) (.int 4))) [] = (.ok 14, []) ∧
    parseString "(2 + 3) * 4" = .ok (.bin ['*'] (.bin ['+'] (.int 2) (.int 3)) (.int 4)) ∧
    eval (.bin ['*'] (.bin ['+'] (.int 2) (.int 3)) (.int 4)) [] = (.ok 20, []) := by
  refine ⟨?_, ?_, ?_, ?_⟩ <;> rfl

/-- **C7** `^` is right-associative and computes integer exponentiation:
`2 ^ 3 ^ 2` parses as `2 ^ (3 ^ 2)` and evaluates to `2^9 = 512`. -/
theorem C7_pow_right_assoc :
    parseString "2 ^ 3 ^ 2" = .ok (.bin ['^'] (.int 2) (.bin ['^'] (.int 3) (.int 2))) ∧
    eval (.bin ['^'] (.int 2) (.bin ['^'] (.int 3) (.int 2))) [] = (.ok 512, []) := by
  exact ⟨rfl, rfl⟩

/-- **C9** Reading a variable never fails: it returns the environment's
value, which defaults to 0 for any name not present; concretely
`evaluate(parse("x"), {})` is 0. -/
theorem C9_unset_vars :
    (∀ (s : Chars) (env : Env), eval (.str s) env = (.ok (envGet env (.str s)), env)) ∧
    (∀ (s : Chars) (env : Env),
      env.find? (fun p => p.1 == Ast.str s) = none →
      eval (.str s) env = (.ok 0, env)) ∧
    parseString "x" = .ok (.str ['x']) ∧
    eval (.str ['x']) [] = (.ok 0, []) := by
  refine ⟨fun s env => rfl, fun s env h => by simp [eval, envGet, h], ?_, ?_⟩ <;> rfl

/-- **C9** witness: the unset-variable theorem applied at the name `x`
and the empty environment. -/
theorem C9_witness : eval (.str ['x']) [] = (.ok 0, []) :=
  C9_unset_vars.2.1 ['x'] [] rfl

theorem next_space (l : Chars) : next (' ' :: l) = next l := by
  unfold next
  rw [List.dropWhile_cons_of_pos (by decide)]

/-- Parsing `x = n` for an arbitrary integer literal `n` (a nonempty digit
run `ds`, whose value is Python `int(ds)` = `digitsVal ds`). -/
theorem parse_assign_digits {ds : Chars} (h1 : ds ≠ []) (h2 : ds.all isDigitCh = true) :
    parse ('x' :: ' ' :: '=' :: ' ' :: ds) =
      .ok (.bin ['='] (.str ['x']) (.int (digitsVal ds))) := by
  have hds : next ds = (.int (digitsVal ds), []) := by
    have := @next_digit_run ds [] h1 h2 (fun c hc => by simp at hc)
    rwa [List.append_nil] at this
  have hfuel : 12 * ('x' :: ' ' :: '=' :: ' ' :: ds).length + 12 =
      (12 * ds.length + 49) + 11 := by
    simp [List.length_cons]
    omega
  unfold parse
  rw [show next ('x' :: ' ' :: '=' :: ' ' :: ds) =
        (.str ['x'], ' ' :: '=' :: ' ' :: ds) from rfl]
  rw [hfuel]
  rw [assign_ident_eq (f := 12 * ds.length + 49) (by decide)
    (show next (' ' :: '=' :: ' ' :: ds) = (.str ['='], ' ' :: ds) from rfl)]
  rw [show (12 * ds.length + 49) + 10 = (12 * ds.length + 48) + 11 from rfl]
  have hnx2 : next (' ' :: ds) = (Tok.int (digitsVal ds), []) := by
    rw [next_space, hds]
  rw [show (next (' ' :: ds)).1 = Tok.int (digitsVal ds) from by rw [hnx2]]
  rw [show (next (' ' :: ds)).2 = ([] : Chars) from by rw [hnx2]]
  rw [assign_int_stop (f := 12 * ds.length + 48)
    (show next ([] : Chars) = (endTok, []) from rfl) (by decide)]
  rfl

/-- **C3** Assignment is an expression that stores and returns its value,
and chains right-associatively.  For every environment and every integer
literal (a nonempty digit run `ds` with value `n = digitsVal ds`),
`parse "x = n"` yields the assignment node, evaluating it returns `n` and
extends the environment so that `x` reads back as `n`; and
`x = y = 3` parses as `x = (y = 3)`, stores 3 under both names, and
returns 3. -/
theorem C3_assignment (ds : Chars) (env : Env) (h1 : ds ≠ [])
    (h2 : ds.all isDigitCh = true) :
    parse ('x' :: ' ' :: '=' :: ' ' :: ds) =
      .ok (.bin ['='] (.str ['x']) (.int (digitsVal ds))) ∧
    eval (.bin ['='] (.str ['x']) (.int (digitsVal ds))) env =
      (.ok (digitsVal ds), (.str ['x'], (digitsVal ds : Int)) :: env) ∧
    parseString "x" = .ok (.str ['x']) ∧
    eval (.str ['x']) ((.str ['x'], (digitsVal ds : Int)) :: env) =
      (.ok (digitsVal ds), (.str ['x'], (digitsVal ds : Int)) :: env) ∧
    parseString "x = y = 3" =
      .ok (.bin ['='] (.str ['x']) (.bin ['='] (.str ['y']) (.int 3))) ∧
    eval (.bin ['='] (.str ['x']) (.bin ['='] (.str ['y']) (.int 3))) env =
      (.ok 3, (.str ['x'], 3) :: (.str ['y'], 3) :: env) ∧
    envGet ((.str ['x'], 3) :: (.str ['y'], 3) :: env) (.str ['x']) = 3 ∧
    envGet ((.str ['x'], 3) :: (.str ['y'], 3) :: env) (.str ['y']) = 3 := by
  refine ⟨parse_assign_digits h1 h2, ?_, ?_, ?_, ?_, ?_, ?_, ?_⟩ <;> rfl

/-- **C3** witness: the assignment theorem applied at the literal `5`
(digit run `['5']`) and the empty environment. -/
theorem C3_witness :
    parse ('x' :: ' ' :: '=' :: ' ' :: ['5']) =
      .ok (.bin ['='] (.str ['x']) (.int 5)) ∧
    eval (.bin ['='] (.str ['x']) (.int 5)) [] = (.ok 5, [(.str ['x'], 5)]) := by
  have h := C3_assignment ['5'] [] (by decide) (by decide)
  exact ⟨h.1, h.2.1⟩

theorem neg_fdiv_neg (a b : Int) : Int.fdiv (-a) (-b) = Int.fdiv a b := by
  rcases a with (_ | am) | am <;> rcases b with (_ | bm) | bm <;>
    first
    | rfl
    | simp [show Int.ofNat 0 = (0 : Int) from rfl, neg_zero, Int.fdiv_zero]

theorem fmod_neg_pair (a b : Int) : Int.fmod a b = -(Int.fmod (-a) (-b)) := by
  rw [Int.fmod_def, Int.fmod_def, neg_fdiv_neg]
  ring

theorem fdiv_eq_floor_pos (a : Int) {b : Int} (hb : 0 < b) :
    Int.fdiv a b = ⌊(a : ℚ) / (b : ℚ)⌋ := by
  have hbn : ((b.toNat : Nat) : Int) = b := Int.toNat_of_nonneg (le_of_lt hb)
  have hc : ((b.toNat : Nat) : ℚ) = (b : ℚ) := by exact_mod_cast hbn
  have h3 := Rat.floor_intCast_div_natCast a b.toNat
  rw [hbn] at h3
  rw [Int.fdiv_eq_ediv _ (le_of_lt hb), ← h3, hc]

theorem fdiv_eq_floor (a b : Int) (hb : b ≠ 0) :
    Int.fdiv a b = ⌊(a : ℚ) / (b : ℚ)⌋ := by
  rcases lt_or_gt_of_ne hb with hneg | hpos
  · have h1 := fdiv_eq_floor_pos (-a) (show (0 : Int) < -b by omega)
    rw [← neg_fdiv_neg a b, h1]
    congr 1
    push_cast
    rw [neg_div_neg_eq]
  · exact fdiv_eq_floor_pos a hpos

theorem fmod_neg_bounds (a : Int) {b : Int} (hb : b < 0) :
    b < a.fmod b ∧ a.fmod b ≤ 0 := by
  have h0 : (0 : Int) < -b := by omega
  have h1 := Int.fmod_nonneg' (-a) h0
  have h2 := Int.fmod_lt_of_pos (-a) h0
  rw [fmod_neg_pair a b]
  omega

/-- **C8** For all integers `a` and `b` with `b` nonzero, the `/` node
evaluates to `Int.fdiv a b` and the `%` node to `Int.fmod a b` (Python's
`//` and `%`); the quotient is the floor of the rational `a / b` (rounded
toward negative infinity), the identity `a = b * (a / b) + (a % b)`
holds, and the remainder is zero or has the sign of the divisor:
`0 ≤ a % b < b` for positive `b`, `b < a % b ≤ 0` for negative `b`. -/
theorem C8_floor_division (a b : Int) (env : Env) (hb : b ≠ 0) :
    eval (.bin ['/'] (.int a) (.int b)) env = (.ok (a.fdiv b), env) ∧
    eval (.bin ['%'] (.int a) (.int b)) env = (.ok (a.fmod b), env) ∧
    a.fdiv b = ⌊(a : ℚ) / (b : ℚ)⌋ ∧
    a = b * (a.fdiv b) + a.fmod b ∧
    (0 < b → 0 ≤ a.fmod b ∧ a.fmod b < b) ∧
    (b < 0 → b < a.fmod b ∧ a.fmod b ≤ 0) := by
  refine ⟨?_, ?_, fdiv_eq_floor a b hb, ?_, ?_, fun h => fmod_neg_bounds a h⟩
  · simp [eval, binArith, hb]
  · simp [eval, binArith, hb]
  · have := Int.fdiv_add_fmod a b
    omega
  · exact fun h => ⟨Int.fmod_nonneg' a h, Int.fmod_lt_of_pos a h⟩

/-- **C8** witness: the floor-division theorem applied at `a = -7`,
`b = 2` in the empty environment. -/
theorem C8_witness :
    eval (.bin ['/'] (.int (-7)) (.int 2)) [] = (.ok (-4), []) ∧
    eval (.bin ['%'] (.int (-7)) (.int 2)) [] = (.ok 1, []) := by
  have h := C8_floor_division (-7) 2 [] (by decide)
  exact ⟨by rw [h.1]; rfl, by rw [h.2.1]; rfl⟩

theorem pyAlpha_ne_nil {x : Chars} (hx : pyIsAlpha x = true) : x ≠ [] := by
  rintro rfl
  simp [pyIsAlpha] at hx

theorem pyAlpha_all {x : Chars} (hx : pyIsAlpha x = true) : x.all isAlphaCh = true := by
  simp only [pyIsAlpha, Bool.and_eq_true] at hx
  exact hx.2

/-- **C10** A parenthesized bare identifier is accepted as an assignment
target: for every identifier `x` (a nonempty letter run) and every
expression text `e`, if `x = e` parses, then `(x) = e` parses to the very
same AST — an assignment node with `x` as target — because parentheses
add no AST node and the post-hoc assignment check sees a bare variable
reference. -/
theorem C10_paren_assign_target (x e : Chars) (a : Ast) (hx : pyIsAlpha x = true)
    (h : parse (x ++ ' ' :: '=' :: ' ' :: e) = .ok a) :
    parse ('(' :: x ++ ')' :: ' ' :: '=' :: ' ' :: e) = .ok a ∧
    ∃ rhs, a = .bin ['='] (.str x) rhs := by
  have hn2 : next (x ++ ' ' :: '=' :: ' ' :: e) = (.str x, ' ' :: '=' :: ' ' :: e) :=
    next_alpha_run (pyAlpha_ne_nil hx) (pyAlpha_all hx)
      (fun c hc => by simp at hc; rw [← hc]; decide)
  have hF2 : 12 * (x ++ ' ' :: '=' :: ' ' :: e).length + 12 =
      (12 * x.length + 12 * e.length + 37) + 11 := by
    simp [List.length_append]
    omega
  unfold parse at h
  rw [hF2] at h
  simp only [hn2] at h
  rw [assign_ident_eq (f := 12 * x.length + 12 * e.length + 37) hx
    (show next (' ' :: '=' :: ' ' :: e) = (Tok.str ['='], ' ' :: e) from rfl)] at h
  rcases hr : parse_assign (12 * x.length + 12 * e.length + 37 + 10)
      (next (' ' :: e)).1 (next (' ' :: e)).2 with pe | ⟨rhs, t4, r4⟩
  · rw [hr] at h
    simp at h
  · rw [hr] at h
    by_cases hend : (t4 == endTok) = true
    · simp only [hend, if_true] at h
      have ha : a = .bin ['='] (.str x) rhs := by
        simpa using h.symm
      -- now the parenthesized input
      have hn1 : next ('(' :: x ++ ')' :: ' ' :: '=' :: ' ' :: e) =
          (.str ['('], x ++ ')' :: ' ' :: '=' :: ' ' :: e) := by
        rw [List.cons_append]
        exact next_lparen _
      have h1 : next (x ++ ')' :: ' ' :: '=' :: ' ' :: e) =
          (.str x, ')' :: ' ' :: '=' :: ' ' :: e) :=
        next_alpha_run (pyAlpha_ne_nil hx) (pyAlpha_all hx)
          (fun c hc => by simp at hc; rw [← hc]; decide)
      have hF1 : 12 * ('(' :: x ++ ')' :: ' ' :: '=' :: ' ' :: e).length + 12 =
          (12 * x.length + 12 * e.length + 50) + 22 := by
        simp [List.length_append]
        omega
      unfold parse
      rw [hF1]
      simp only [hn1]
      rw [assign_paren_ident (f := 12 * x.length + 12 * e.length + 50) hx h1
        (next_rparen _)
        (show next (' ' :: '=' :: ' ' :: e) = (Tok.str ['='], ' ' :: e) from rfl)]
      rw [parse_assign_mono
        (show 12 * x.length + 12 * e.length + 37 + 10 ≤ 12 * x.length + 12 * e.length + 50 + 21
          by omega) _ _ (by rw [hr]; simp), hr]
      simp only [hend, if_true]
      rw [ha]
      exact ⟨rfl, rhs, rfl⟩
    · simp only [hend, Bool.false_eq_true, if_false] at h
      exact absurd h (by simp)

/-- **C10** witness: the parenthesized-target theorem applied at
`x := "x"`, `e := "5"`, i.e. `(x) = 5` parses like `x = 5`. -/
theorem C10_witness :
    parse ('(' :: ['x'] ++ ')' :: ' ' :: '=' :: ' ' :: ['5']) =
      .ok (.bin ['='] (.str ['x']) (.int 5)) ∧
    parse (['x'] ++ ' ' :: '=' :: ' ' :: ['5']) =
      .ok (.bin ['='] (.str ['x']) (.int 5)) :=
  ⟨(C10_paren_assign_target ['x'] ['5'] _ (by decide) (by decide)).1, by decide⟩

-- ### C4: unrecognized characters

/-- A character matched only by the lexer's catch-all rule `.`:
not skippable, not part of any token class, and not a newline
(which `.` does not match). -/
def isBadCh (c : Char) : Bool :=
  !(isSpaceTab c || isDigitCh c || isAlphaCh c || punctCh c) && !(c == '\n')

/-- Tokens beginning with `'#'` — exactly the error tokens, since no
other lexer rule can produce a string starting with `'#'`. -/
def startsHash (t : Tok) : Bool :=
  match t with
  | .str (c :: _) => c == '#'
  | _ => false

/-- Some character of `l` is an error character. -/
def hasBad (l : Chars) : Bool := l.any isBadCh

/-- No newline in `l`. -/
def noNL (l : Chars) : Bool := l.all (fun c => c != '\n')

/-- The parser-state invariant: a newline-free remainder, the end token
only at true end of input, and an error token pending or an error
character still ahead. -/
def Good (t : Tok) (r : Chars) : Prop :=
  noNL r = true ∧ (t = endTok → r = []) ∧ (startsHash t = true ∨ hasBad r = true)

theorem isBadCh_spec {c : Char} (h : isBadCh c = true) :
    isSpaceTab c = false ∧ isDigitCh c = false ∧ isAlphaCh c = false ∧
    punctCh c = false ∧ c ≠ '\n' := by
  simp only [isBadCh, Bool.and_eq_true, Bool.not_eq_true', Bool.or_eq_false_iff,
    bne_iff_ne, ne_eq] at h
  exact ⟨h.1.1.1.1, h.1.1.1.2, h.1.1.2, h.1.2, by simpa using h.2⟩

theorem not_bad_of_space {c : Char} (h : isSpaceTab c = true) : isBadCh c = false := by
  simp [isBadCh, h]

theorem not_bad_of_digit {c : Char} (h : isDigitCh c = true) : isBadCh c = false := by
  simp [isBadCh, h]

theorem not_bad_of_alpha {c : Char} (h : isAlphaCh c = true) : isBadCh c = false := by
  simp [isBadCh, h]

theorem not_bad_of_punct {c : Char} (h : punctCh c = true) : isBadCh c = false := by
  simp [isBadCh, h]

theorem noNL_dropWhile (p : Char → Bool) {l : Chars} (h : noNL l = true) :
    noNL (l.dropWhile p) = true := by
  induction l with
  | nil => exact h
  | cons c tl ih =>
    simp only [noNL, List.all_cons, Bool.and_eq_true] at h
    by_cases hp : p c = true
    · rw [List.dropWhile_cons_of_pos hp]
      exact ih h.2
    · rw [List.dropWhile_cons_of_neg (by simp [hp])]
      simpa [noNL] using h

theorem noNL_tail {c : Char} {l : Chars} (h : noNL (c :: l) = true) : noNL l = true := by
  simp only [noNL, List.all_cons, Bool.and_eq_true] at h
  exact h.2

theorem hasBad_dropWhile {p : Char → Bool} (hp : ∀ c, p c = true → isBadCh c = false)
    {l : Chars} (h : hasBad l = true) : hasBad (l.dropWhile p) = true := by
  induction l with
  | nil => simpa using h
  | cons c tl ih =>
    by_cases hc : p c = true
    · rw [List.dropWhile_cons_of_pos hc]
      simp only [hasBad, List.any_cons, Bool.or_eq_true] at h
      rcases h with h | h
      · rw [hp c hc] at h
        exact absurd h (by simp)
      · exact ih h
    · rwa [List.dropWhile_cons_of_neg (by simp [hc])]

theorem hasBad_tail {c : Char} {l : Chars} (hc : isBadCh c = false)
    (h : hasBad (c :: l) = true) : hasBad l = true := by
  simp only [hasBad, List.any_cons, Bool.or_eq_true] at h
  rcases h with h | h
  · rw [hc] at h
    exact absurd h (by simp)
  · exact h

/-- Lexer step: from a newline-free remainder that still holds an error
character, `next` yields a `Good` state. -/
theorem next_good {r : Chars} (hn : noNL r = true) (hb : hasBad r = true) :
    Good (next r).1 (next r).2 := by
  have hn' := noNL_dropWhile isSpaceTab hn
  have hb' := hasBad_dropWhile (fun c hc => not_bad_of_space hc) hb
  unfold next
  rcases hdw : r.dropWhile isSpaceTab with _ | ⟨c1, rest⟩
  · rw [hdw] at hb'
    exact absurd hb' (by simp [hasBad])
  · rw [hdw] at hn' hb'
    have hnr := noNL_tail hn'
    have hnl1 : c1 ≠ '\n' := by
      simp only [noNL, List.all_cons, Bool.and_eq_true, bne_iff_ne, ne_eq] at hn'
      exact hn'.1
    rcases rest with _ | ⟨c2, rest2⟩
    · -- single character left: it must be the bad one (or lexes leaving [])
      have hc1 : isBadCh c1 = true := by
        simp only [hasBad, List.any_cons, List.any_nil, Bool.or_false] at hb'
        exact hb'
      obtain ⟨h1, h2, h3, h4, -⟩ := isBadCh_spec hc1
      simp only [lexRest, h2, h3, h4, Bool.false_eq_true, if_false,
        show (c1 == '\n') = false from by simp [hnl1]]
      exact ⟨by simp [noNL], by simp [endTok, ordTok], Or.inl rfl⟩
    · by_cases htc : isTwoCharOp c1 c2 = true
      · simp only [htc, if_true]
        have htc2 := htc
        simp only [isTwoCharOp, Bool.or_eq_true, Bool.and_eq_true, beq_iff_eq] at htc2
        have hc1p : punctCh c1 = true := by
          rcases htc2 with ((⟨h1, -⟩ | ⟨h1, -⟩) | ⟨h1, -⟩) | ⟨h1, -⟩ <;> rw [h1] <;> decide
        have hc2p : punctCh c2 = true := by
          rcases htc2 with ((⟨-, h1⟩ | ⟨-, h1⟩) | ⟨-, h1⟩) | ⟨-, h1⟩ <;> rw [h1] <;> decide
        have hbad2 : hasBad rest2 = true :=
          hasBad_tail (not_bad_of_punct hc2p) (hasBad_tail (not_bad_of_punct hc1p) hb')
        refine ⟨noNL_tail hnr, ?_, Or.inr hbad2⟩
        intro hcon
        exfalso
        have h1 : c1 :: c2 :: ([] : Chars) = ['$'] := by injection hcon
        simp at h1
      · simp only [htc, Bool.false_eq_true, if_false, lexRest]
        by_cases hd : isDigitCh c1 = true
        · simp only [hd, if_true]
          have hbr := hasBad_tail (not_bad_of_digit hd) hb'
          refine ⟨noNL_dropWhile _ hnr, by simp [endTok],
            Or.inr (hasBad_dropWhile (fun c hc => not_bad_of_digit hc) hbr)⟩
        · simp only [hd, Bool.false_eq_true, if_false]
          by_cases ha : isAlphaCh c1 = true
          · simp only [ha, if_true]
            have hbr := hasBad_tail (not_bad_of_alpha ha) hb'
            refine ⟨noNL_dropWhile _ hnr, ?_,
              Or.inr (hasBad_dropWhile (fun c hc => not_bad_of_alpha hc) hbr)⟩
            intro hcon
            exfalso
            have h1 : c1 :: List.takeWhile isAlphaCh (c2 :: rest2) = ['$'] := by
              injection hcon
            have h2 : c1 = '$' := by
              injection h1
            rw [h2] at ha
            exact absurd ha (by decide)
          · simp only [ha, Bool.false_eq_true, if_false]
            by_cases hp : punctCh c1 = true
            · simp only [hp, if_true]
              have hbr := hasBad_tail (not_bad_of_punct hp) hb'
              refine ⟨hnr, ?_, Or.inr hbr⟩
              intro hcon
              exfalso
              have h1 : c1 :: ([] : Chars) = ['$'] := by injection hcon
              have h2 : c1 = '$' := by injection h1
              rw [h2] at hp
              exact absurd hp (by decide)
            · simp only [hp, Bool.false_eq_true, if_false,
                show (c1 == '\n') = false from by simp [hnl1]]
              exact ⟨hnr, by simp [endTok, ordTok], Or.inl rfl⟩

/-- Advancing past a non-error token in a `Good` state lands in a `Good`
state: the pending error character is still ahead. -/
theorem good_adv {t' : Tok} {r' : Chars} (hg : Good t' r') (hsh : startsHash t' = false) :
    Good (next r').1 (next r').2 := by
  rcases hg.2.2 with h | h
  · rw [hsh] at h
    exact absurd h (by simp)
  · exact next_good hg.1 h

theorem startsHash_false_of_cmp {t : Tok} (h : isCmpTok t = true) :
    startsHash t = false := by
  simp only [isCmpTok, Bool.or_eq_true] at h
  rcases h with ((((h | h) | h) | h) | h) | h <;> rw [eq_of_beq h] <;> rfl

def CleanAt (p : Nat → Tok → Chars → PRes) (f : Nat) : Prop :=
  ∀ t r, Good t r → (∃ pe, p f t r = .error pe) ∨
    (∃ e t' r', p f t r = .ok (e, t', r') ∧ Good t' r')

def CleanAtL (p : Nat → Ast → Tok → Chars → PRes) (f : Nat) : Prop :=
  ∀ e t r, Good t r → (∃ pe, p f e t r = .error pe) ∨
    (∃ e2 t' r', p f e t r = .ok (e2, t', r') ∧ Good t' r')

theorem clean_all (f : Nat) :
    CleanAt parse_assign f ∧ CleanAt parse_ternary f ∧ CleanAt parse_or f ∧
    CleanAt parse_and f ∧ CleanAt parse_not f ∧ CleanAt parse_compare f ∧
    CleanAtL compare_loop f ∧ CleanAt parse_add f ∧ CleanAtL add_loop f ∧
    CleanAt parse_mul f ∧ CleanAtL mul_loop f ∧ CleanAt parse_unary f ∧
    CleanAt parse_pow f ∧ CleanAt parse_factor f := by
  induction f with
  | zero =>
    refine ⟨?_, ?_, ?_, ?_, ?_, ?_, ?_, ?_, ?_, ?_, ?_, ?_, ?_, ?_⟩ <;>
      first
      | exact fun t r _ => Or.inl ⟨.fuelOut, rfl⟩
      | exact fun e t r _ => Or.inl ⟨.fuelOut, rfl⟩
  | succ f ih =>
    obtain ⟨iha, iht, iho, ihd, ihn, ihc, ihcl, ihad, ihal, ihm, ihml, ihu, ihp, ihf⟩ := ih
    refine ⟨?_, ?_, ?_, ?_, ?_, ?_, ?_, ?_, ?_, ?_, ?_, ?_, ?_, ?_⟩
    -- parse_assign
    · intro t r hg
      rcases iht t r hg with ⟨pe, hpe⟩ | ⟨e, t', r', hok, hg'⟩
      · exact Or.inl ⟨pe, by rw [parse_assign_succ]; simp only [hpe]⟩
      · rcases e with n | s | ⟨op, a⟩ | ⟨op, a, b⟩ | ⟨op, a, b, c⟩
        case str =>
          by_cases hgd : (pyIsAlpha s && t' == Tok.str ['=']) = true
          · have hgd2 := hgd
            simp only [Bool.and_eq_true] at hgd2
            have hb2 : (t' == Tok.str ['=']) = true := hgd2.2
            have hg2 := good_adv hg' (by rw [eq_of_beq hb2]; rfl)
            rcases iha _ _ hg2 with ⟨pe2, hpe2⟩ | ⟨rhs, t2, r2, hok2, hg2'⟩
            · refine Or.inl ⟨pe2, ?_⟩
              rw [parse_assign_succ]
              simp only [hok, hgd, if_true, hpe2]
            · refine Or.inr ⟨.bin ['='] (.str s) rhs, t2, r2, ?_, hg2'⟩
              rw [parse_assign_succ]
              simp only [hok, hgd, if_true, hok2]
          · refine Or.inr ⟨.str s, t', r', ?_, hg'⟩
            rw [parse_assign_succ]
            simp only [hok, hgd, Bool.false_eq_true, if_false]
        case int =>
          exact Or.inr ⟨.int n, t', r', by rw [parse_assign_succ]; simp only [hok], hg'⟩
        case un =>
          exact Or.inr ⟨.un op a, t', r', by rw [parse_assign_succ]; simp only [hok], hg'⟩
        case bin =>
          exact Or.inr ⟨.bin op a b, t', r',
            by rw [parse_assign_succ]; simp only [hok], hg'⟩
        case tern =>
          exact Or.inr ⟨.tern op a b c, t', r',
            by rw [parse_assign_succ]; simp only [hok], hg'⟩
    -- parse_ternary
    · intro t r hg
      rcases iho t r hg with ⟨pe, hpe⟩ | ⟨e, t', r', hok, hg'⟩
      · exact Or.inl ⟨pe, by rw [parse_ternary_succ]; simp only [hpe]⟩
      · by_cases hq : (t' == Tok.str ['?']) = true
        · have hg2 := good_adv hg' (by rw [eq_of_beq hq]; rfl)
          rcases iha _ _ hg2 with ⟨pe2, hpe2⟩ | ⟨tb, t2, r2, hok2, hg2'⟩
          · refine Or.inl ⟨pe2, ?_⟩
            rw [parse_ternary_succ]
            simp only [hok, hq, if_true, hpe2]
          · by_cases hc : (t2 == Tok.str [':']) = true
            · have hg3 := good_adv hg2' (by rw [eq_of_beq hc]; rfl)
              rcases iha _ _ hg3 with ⟨pe3, hpe3⟩ | ⟨fb, t3, r3, hok3, hg3'⟩
              · refine Or.inl ⟨pe3, ?_⟩
                rw [parse_ternary_succ]
                simp only [hok, hq, if_true, hok2, hc, hpe3]
              · refine Or.inr ⟨.tern ['?', ':'] e tb fb, t3, r3, ?_, hg3'⟩
                rw [parse_ternary_succ]
                simp only [hok, hq, if_true, hok2, hc, hok3]
            · refine Or.inl ⟨.err "missing colon in ternary expression" t2, ?_⟩
              rw [parse_ternary_succ]
              simp only [hok, hq, if_true, hok2, hc, Bool.false_eq_true, if_false]
        · refine Or.inr ⟨e, t', r', ?_, hg'⟩
          rw [parse_ternary_succ]
          simp only [hok, hq, Bool.false_eq_true, if_false]
    -- parse_or
    · intro t r hg
      rcases ihd t r hg with ⟨pe, hpe⟩ | ⟨left, t', r', hok, hg'⟩
      · exact Or.inl ⟨pe, by rw [parse_or_succ]; simp only [hpe]⟩
      · by_cases hb : (t' == Tok.str ['|']) = true
        · have hg2 := good_adv hg' (by rw [eq_of_beq hb]; rfl)
          rcases iho _ _ hg2 with ⟨pe2, hpe2⟩ | ⟨right, t2, r2, hok2, hg2'⟩
          · exact Or.inl ⟨pe2, by rw [parse_or_succ]; simp only [hok, hb, if_true, hpe2]⟩
          · exact Or.inr ⟨.bin ['|'] left right, t2, r2,
              by rw [parse_or_succ]; simp only [hok, hb, if_true, hok2], hg2'⟩
        · exact Or.inr ⟨left, t', r',
            by rw [parse_or_succ]; simp only [hok, hb, Bool.false_eq_true, if_false], hg'⟩
    -- parse_and
    · intro t r hg
      rcases ihn t r hg with ⟨pe, hpe⟩ | ⟨left, t', r', hok, hg'⟩
      · exact Or.inl ⟨pe, by rw [parse_and_succ]; simp only [hpe]⟩
      · by_cases hb : (t' == Tok.str ['&']) = true
        · have hg2 := good_adv hg' (by rw [eq_of_beq hb]; rfl)
          rcases ihd _ _ hg2 with ⟨pe2, hpe2⟩ | ⟨right, t2, r2, hok2, hg2'⟩
          · exact Or.inl ⟨pe2, by rw [parse_and_succ]; simp only [hok, hb, if_true, hpe2]⟩
          · exact Or.inr ⟨.bin ['&'] left right, t2, r2,
              by rw [parse_and_succ]; simp only [hok, hb, if_true, hok2], hg2'⟩
        · exact Or.inr ⟨left, t', r',
            by rw [parse_and_succ]; simp only [hok, hb, Bool.false_eq_true, if_false], hg'⟩
    -- parse_not
    · intro t r hg
      by_cases hb : (t == Tok.str ['!']) = true
      · have hg2 := good_adv hg (by rw [eq_of_beq hb]; rfl)
        rcases ihn _ _ hg2 with ⟨pe2, hpe2⟩ | ⟨a, t2, r2, hok2, hg2'⟩
        · exact Or.inl ⟨pe2, by rw [parse_not_succ]; simp only [hb, if_true, hpe2]⟩
        · exact Or.inr ⟨.un ['!'] a, t2, r2,
            by rw [parse_not_succ]; simp only [hb, if_true, hok2], hg2'⟩
      · rcases ihc t r hg with ⟨pe, hpe⟩ | ⟨e, t', r', hok, hg'⟩
        · exact Or.inl ⟨pe,
            by rw [parse_not_succ]; simp only [hb, Bool.false_eq_true, if_false, hpe]⟩
        · exact Or.inr ⟨e, t', r',
            by rw [parse_not_succ]; simp only [hb, Bool.false_eq_true, if_false, hok], hg'⟩
    -- parse_compare
    · intro t r hg
      rcases ihad t r hg with ⟨pe, hpe⟩ | ⟨e, t', r', hok, hg'⟩
      · exact Or.inl ⟨pe, by rw [parse_compare_succ]; simp only [hpe]⟩
      · rcases ihcl e t' r' hg' with ⟨pe2, hpe2⟩ | ⟨e2, t2, r2, hok2, hg2⟩
        · exact Or.inl ⟨pe2, by rw [parse_compare_succ]; simp only [hok, hpe2]⟩
        · exact Or.inr ⟨e2, t2, r2, by rw [parse_compare_succ]; simp only [hok, hok2], hg2⟩
    -- compare_loop
    · intro e t r hg
      by_cases hb : isCmpTok t = true
      · have hg2 := good_adv hg (startsHash_false_of_cmp hb)
        rcases ihad _ _ hg2 with ⟨pe2, hpe2⟩ | ⟨right, t2, r2, hok2, hg2'⟩
        · exact Or.inl ⟨pe2, by rw [compare_loop_succ]; simp only [hb, if_true, hpe2]⟩
        · rcases ihcl (.bin (tokChars t) e right) t2 r2 hg2' with
            ⟨pe3, hpe3⟩ | ⟨e3, t3, r3, hok3, hg3⟩
          · exact Or.inl ⟨pe3,
              by rw [compare_loop_succ]; simp only [hb, if_true, hok2, hpe3]⟩
          · exact Or.inr ⟨e3, t3, r3,
              by rw [compare_loop_succ]; simp only [hb, if_true, hok2, hok3], hg3⟩
      · exact Or.inr ⟨e, t, r,
          by rw [compare_loop_succ]; simp only [hb, Bool.false_eq_true, if_false], hg⟩
    -- parse_add
    · intro t r hg
      rcases ihm t r hg with ⟨pe, hpe⟩ | ⟨e, t', r', hok, hg'⟩
      · exact Or.inl ⟨pe, by rw [parse_add_succ]; simp only [hpe]⟩
      · rcases ihal e t' r' hg' with ⟨pe2, hpe2⟩ | ⟨e2, t2, r2, hok2, hg2⟩
        · exact Or.inl ⟨pe2, by rw [parse_add_succ]; simp only [hok, hpe2]⟩
        · exact Or.inr ⟨e2, t2, r2, by rw [parse_add_succ]; simp only [hok, hok2], hg2⟩
    -- add_loop
    · intro e t r hg
      by_cases hb : (t == Tok.str ['+'] || t == Tok.str ['-']) = true
      · have hsh : startsHash t = false := by
          have hb2 := hb
          simp only [Bool.or_eq_true] at hb2
          rcases hb2 with h | h <;> rw [eq_of_beq h] <;> rfl
        have hg2 := good_adv hg hsh
        rcases ihm _ _ hg2 with ⟨pe2, hpe2⟩ | ⟨right, t2, r2, hok2, hg2'⟩
        · exact Or.inl ⟨pe2, by rw [add_loop_succ]; simp only [hb, if_true, hpe2]⟩
        · rcases ihal (.bin (tokChars t) e right) t2 r2 hg2' with
            ⟨pe3, hpe3⟩ | ⟨e3, t3, r3, hok3, hg3⟩
          · exact Or.inl ⟨pe3, by rw [add_loop_succ]; simp only [hb, if_true, hok2, hpe3]⟩
          · exact Or.inr ⟨e3, t3, r3,
              by rw [add_loop_succ]; simp only [hb, if_true, hok2, hok3], hg3⟩
      · exact Or.inr ⟨e, t, r,
          by rw [add_loop_succ]; simp only [hb, Bool.false_eq_true, if_false], hg⟩
    -- parse_mul
    · intro t r hg
      rcases ihu t r hg with ⟨pe, hpe⟩ | ⟨e, t', r', hok, hg'⟩
      · exact Or.inl ⟨pe, by rw [parse_mul_succ]; simp only [hpe]⟩
      · rcases ihml e t' r' hg' with ⟨pe2, hpe2⟩ | ⟨e2, t2, r2, hok2, hg2⟩
        · exact Or.inl ⟨pe2, by rw [parse_mul_succ]; simp only [hok, hpe2]⟩
        · exact Or.inr ⟨e2, t2, r2, by rw [parse_mul_succ]; simp only [hok, hok2], hg2⟩
    -- mul_loop
    · intro e t r hg
      by_cases hb : (t == Tok.str ['*'] || t == Tok.str ['/'] || t == Tok.str ['%']) = true
      · have hsh : startsHash t = false := by
          have hb2 := hb
          simp only [Bool.or_eq_true] at hb2
          rcases hb2 with (h | h) | h <;> rw [eq_of_beq h] <;> rfl
        have hg2 := good_adv hg hsh
        rcases ihu _ _ hg2 with ⟨pe2, hpe2⟩ | ⟨right, t2, r2, hok2, hg2'⟩
        · exact Or.inl ⟨pe2, by rw [mul_loop_succ]; simp only [hb, if_true, hpe2]⟩
        · rcases ihml (.bin (tokChars t) e right) t2 r2 hg2' with
            ⟨pe3, hpe3⟩ | ⟨e3, t3, r3, hok3, hg3⟩
          · exact Or.inl ⟨pe3, by rw [mul_loop_succ]; simp only [hb, if_true, hok2, hpe3]⟩
          · exact Or.inr ⟨e3, t3, r3,
              by rw [mul_loop_succ]; simp only [hb, if_true, hok2, hok3], hg3⟩
      · exact Or.inr ⟨e, t, r,
          by rw [mul_loop_succ]; simp only [hb, Bool.false_eq_true, if_false], hg⟩
    -- parse_unary
    · intro t r hg
      by_cases hb : (t == Tok.str ['-'] || t == Tok.str ['@']) = true
      · have hsh : startsHash t = false := by
          have hb2 := hb
          simp only [Bool.or_eq_true] at hb2
          rcases hb2 with h | h <;> rw [eq_of_beq h] <;> rfl
        have hg2 := good_adv hg hsh
        rcases ihu _ _ hg2 with ⟨pe2, hpe2⟩ | ⟨a, t2, r2, hok2, hg2'⟩
        · exact Or.inl ⟨pe2, by rw [parse_unary_succ]; simp only [hb, if_true, hpe2]⟩
        · exact Or.inr ⟨.un (tokChars t) a, t2, r2,
            by rw [parse_unary_succ]; simp only [hb, if_true, hok2], hg2'⟩
      · rcases ihp t r hg with ⟨pe, hpe⟩ | ⟨e, t', r', hok, hg'⟩
        · exact Or.inl ⟨pe,
            by rw [parse_unary_succ]; simp only [hb, Bool.false_eq_true, if_false, hpe]⟩
        · exact Or.inr ⟨e, t', r',
            by rw [parse_unary_succ]; simp only [hb, Bool.false_eq_true, if_false, hok], hg'⟩
    -- parse_pow
    · intro t r hg
      rcases ihf t r hg with ⟨pe, hpe⟩ | ⟨left, t', r', hok, hg'⟩
      · exact Or.inl ⟨pe, by rw [parse_pow_succ]; simp only [hpe]⟩
      · by_cases hb : (t' == Tok.str ['^']) = true
        · have hg2 := good_adv hg' (by rw [eq_of_beq hb]; rfl)
          rcases ihp _ _ hg2 with ⟨pe2, hpe2⟩ | ⟨right, t2, r2, hok2, hg2'⟩
          · exact Or.inl ⟨pe2, by rw [parse_pow_succ]; simp only [hok, hb, if_true, hpe2]⟩
          · exact Or.inr ⟨.bin ['^'] left right, t2, r2,
              by rw [parse_pow_succ]; simp only [hok, hb, if_true, hok2], hg2'⟩
        · exact Or.inr ⟨left, t', r',
            by rw [parse_pow_succ]; simp only [hok, hb, Bool.false_eq_true, if_false], hg'⟩
    -- parse_factor
    · intro t r hg
      rcases t with n | s
      · have hg2 := good_adv hg (by rfl)
        exact Or.inr ⟨.int n, (next r).1, (next r).2, by rw [parse_factor_succ], hg2⟩
      · by_cases halpha : pyIsAlpha s = true
        · have hsh : startsHash (Tok.str s) = false := by
            rcases s with _ | ⟨c, tl⟩
            · rfl
            · simp only [pyIsAlpha, List.isEmpty_cons, Bool.not_false, Bool.true_and,
                List.all_cons, Bool.and_eq_true] at halpha
              have : (c == '#') = false := by
                have h1 := halpha.1
                rcases eq_or_ne c '#' with rfl | hne
                · exact absurd h1 (by decide)
                · simp [hne]
              simpa [startsHash] using this
          have hg2 := good_adv hg hsh
          exact Or.inr ⟨.str s, (next r).1, (next r).2,
            by rw [parse_factor_succ]; simp only [halpha, if_true], hg2⟩
        · by_cases hlp : (s == ['(']) = true
          · have hg2 := good_adv hg (by rw [show s = ['('] from eq_of_beq hlp]; rfl)
            rcases iha _ _ hg2 with ⟨pe2, hpe2⟩ | ⟨e, t2, r2, hok2, hg2'⟩
            · exact Or.inl ⟨pe2, by
                rw [parse_factor_succ]
                simp only [halpha, Bool.false_eq_true, if_false, hlp, if_true, hpe2]⟩
            · by_cases hrp : (t2 == Tok.str [')']) = true
              · have hg3 := good_adv hg2' (by rw [eq_of_beq hrp]; rfl)
                exact Or.inr ⟨e, (next r2).1, (next r2).2, by
                  rw [parse_factor_succ]
                  simp only [halpha, Bool.false_eq_true, if_false, hlp, if_true, hok2,
                    hrp], hg3⟩
              · exact Or.inl ⟨.err "missing closing paren" t2, by
                  rw [parse_factor_succ]
                  simp only [halpha, Bool.false_eq_true, if_false, hlp, if_true, hok2,
                    hrp]⟩
          · exact Or.inl ⟨.err "expected int, variable, or open paren" (.str s), by
              rw [parse_factor_succ]
              simp only [halpha, Bool.false_eq_true, if_false, hlp]⟩

theorem next_badCh {c : Char} (h : isBadCh c = true) (r : Chars) :
    next (c :: r) = (ordTok c, r) := by
  obtain ⟨h1, h2, h3, h4, h5⟩ := isBadCh_spec h
  exact next_bad h1 h2 h3 h4 h5 r

theorem ordTok_distinct (c : Char) :
    (∀ n : Int, ordTok c ≠ .int n) ∧ ordTok c ≠ endTok ∧
    (∀ s, pyIsAlpha s = true → ordTok c ≠ .str s) ∧
    (∀ d, punctCh d = true → ordTok c ≠ .str [d]) ∧
    (∀ d1 d2, isTwoCharOp d1 d2 = true → ordTok c ≠ .str [d1, d2]) := by
  refine ⟨fun n => by simp [ordTok], by simp [ordTok, endTok], ?_, ?_, ?_⟩
  · intro s hs hcon
    have hs2 : s = '#' :: (Nat.repr c.toNat).toList := by
      injection hcon.symm
    rw [hs2] at hs
    simp [pyIsAlpha, show isAlphaCh '#' = false from by decide] at hs
  · intro d hd hcon
    injection hcon with h
    have h2 : '#' = d := by injection h
    rw [← h2] at hd
    exact absurd hd (by decide)
  · intro d1 d2 htc hcon
    injection hcon with h
    have h2 : '#' = d1 := by injection h
    rw [← h2] at htc
    simp [isTwoCharOp] at htc

theorem factor_rejects_err (f : Nat) (c : Char) (r : Chars) :
    parse_factor (f + 1) (ordTok c) r =
      .error (.err "expected int, variable, or open paren" (ordTok c)) := by
  rw [parse_factor_succ]
  have h1 : pyIsAlpha ('#' :: (Nat.repr c.toNat).toList) = false := by
    simp [pyIsAlpha, show isAlphaCh '#' = false from by decide]
  have h2 : (('#' :: (Nat.repr c.toNat).toList : Chars) == ['(']) = false := by
    rw [beq_eq_false_iff_ne]
    intro hcon
    have h3 : '#' = '(' := by injection hcon
    exact absurd h3 (by decide)
  simp only [ordTok, h1, Bool.false_eq_true, if_false, h2]

theorem parse_never_ok_of_bad {l : Chars} (hn : noNL l = true) (hb : hasBad l = true)
    (a : Ast) : parse l ≠ .ok a := by
  intro hok
  unfold parse at hok
  have hg0 : Good (next l).1 (next l).2 := next_good hn hb
  rcases (clean_all (12 * l.length + 12)).1 _ _ hg0 with ⟨pe, hpe⟩ | ⟨e, t', r', hokk, hg'⟩
  · rw [hpe] at hok
    exact absurd hok (by simp)
  · simp only [hokk] at hok
    by_cases hend : (t' == endTok) = true
    · have ht' := eq_of_beq hend
      have hr' : r' = [] := hg'.2.1 ht'
      rcases hg'.2.2 with hsh | hbad
      · rw [ht'] at hsh
        exact absurd hsh (by decide)
      · rw [hr'] at hbad
        exact absurd hbad (by decide)
    · simp only [hend, Bool.false_eq_true, if_false] at hok
      exact absurd hok (by simp)

/-- **C4** counterexample to the claim as stated: a newline is not a
space/tab, digit, ASCII letter, or punctuation character (first four
conjuncts), yet `next` does not return an error token carrying its code
point — it returns the end-of-input token without consuming the newline —
and the input `"1\n"`, which contains that character, parses successfully
instead of raising a ParseFailure (the text after a newline is silently
ignored). -/
theorem C4_counterexample :
    isSpaceTab '\n' = false ∧ isDigitCh '\n' = false ∧ isAlphaCh '\n' = false ∧
    punctCh '\n' = false ∧
    next ['\n'] = (endTok, ['\n']) ∧ endTok ≠ ordTok '\n' ∧
    parseString "1\n" = .ok (.int 1) := by
  refine ⟨rfl, rfl, rfl, rfl, rfl, ?_, rfl⟩
  decide

/-- **C4** (amended) For every single character that is not a space/tab,
digit, ASCII letter, a member of the fixed punctuation set, **or a
newline**, the lexer's `next` returns an error token `'#' + str(ord(c))`
carrying the character's numeric code point; that token is distinct from
every valid token (integer literals, the end marker, identifiers,
punctuation tokens and two-character operators); it matches no parser
production — `parse_factor` rejects it outright — so parsing a
**newline-free** input containing such a character never succeeds.
Concretely, `parse "1 # 2"` raises the ParseFailure "extraneous input"
at the error token `'#35'`.  (A newline instead lexes as end-of-input
without being consumed, so inputs containing a newline can parse
successfully with the remainder ignored — the counterexample.) -/
theorem C4_error_tokens :
    (∀ (c : Char) (r : Chars), isBadCh c = true → next (c :: r) = (ordTok c, r)) ∧
    (∀ c : Char,
      (∀ n : Int, ordTok c ≠ .int n) ∧ ordTok c ≠ endTok ∧
      (∀ s, pyIsAlpha s = true → ordTok c ≠ .str s) ∧
      (∀ d, punctCh d = true → ordTok c ≠ .str [d]) ∧
      (∀ d1 d2, isTwoCharOp d1 d2 = true → ordTok c ≠ .str [d1, d2])) ∧
    (∀ (f : Nat) (c : Char) (r : Chars),
      parse_factor (f + 1) (ordTok c) r =
        .error (.err "expected int, variable, or open paren" (ordTok c))) ∧
    (∀ l : Chars, noNL l = true → hasBad l = true → ∀ a : Ast, parse l ≠ .ok a) ∧
    parseString "1 # 2" = .error (.err "extraneous input" (.str ['#', '3', '5'])) := by
  exact ⟨fun c r h => next_badCh h r, ordTok_distinct,
    fun f c r => factor_rejects_err f c r,
    fun l hn hb a => parse_never_ok_of_bad hn hb a, rfl⟩

/-- **C4** witness: the amended theorem applied at the concrete character
`'#'` and the concrete input `"1#"`. -/
theorem C4_witness :
    next ['#'] = (ordTok '#', []) ∧
    parse ['1', '#'] ≠ .ok (.int 1) ∧
    parse_factor (0 + 1) (ordTok '#') [] =
      .error (.err "expected int, variable, or open paren" (ordTok '#')) :=
  ⟨C4_error_tokens.1 '#' [] (by decide),
   C4_error_tokens.2.2.2.1 ['1', '#'] (by decide) (by decide) (.int 1),
   C4_error_tokens.2.2.1 0 '#' []⟩
